import Mathlib

/-!
# The `cwt` test runner (`src/cwt_testrunner.c`)

A shallow embedding of the runner's registry, its merge sort over the intrusive
`next` chain of `struct cwt_test`, the decoding of a child's wait status, the pipe
drain loop, the header padding arithmetic and the collection of failing records.

Memory is modelled field by field: a pointer is a natural number, `0` is `NULL`,
and every field of a struct is a map from addresses to values.  An access through
`NULL` is a fault, so a result `Except.ok` also says that no `NULL` was dereferenced.
Loops over a pointer chain take a fuel argument; running out of fuel is a fault of
its own, distinct from everything the C code can do.
-/

namespace Cwt

/-! ## Memory -/

/-- An address; `0` is `NULL`. -/
abbrev Ptr := Nat

/-- The ways an execution leaves the normal path. -/
inductive Fault where
  /-- A field of `NULL` was read or written. -/
  | null_deref
  /-- A loop of the model exhausted its fuel. -/
  | out_of_fuel
  /-- The helper `die` or `die_if` aborted the process. -/
  | died
  deriving DecidableEq, Repr

/-- The fields of every `struct cwt_test` in memory (`cwt_testlib.h`, lines 12-20), one map
per field.  A string is the list of bytes stored at the pointed address.  The fields
`filename` and `lineno`, which the runner never reads, are left out; what `runner` does when
called is part of `Env` below. -/
structure Heap where
  next : Ptr → Ptr
  suite : Ptr → List Nat
  name : Ptr → List Nat

/-- Read `p->next`. -/
def get_next (h : Heap) (p : Ptr) : Except Fault Ptr :=
  if p = 0 then .error .null_deref else .ok (h.next p)

/-- Write `p->next = v`. -/
def set_next (h : Heap) (p v : Ptr) : Except Fault Heap :=
  if p = 0 then .error .null_deref else .ok { h with next := Function.update h.next p v }

/-! ## The registry and its order (lines 32-38 and 204-277) -/

/-- The runner's global state: the memory holding the descriptors and the static
`registered_tests_head` (line 32). -/
structure Registry where
  heap : Heap
  registered_tests_head : Ptr

/-- `cwt_register_test` (lines 34-38): the descriptor is pushed in front of the list. -/
def cwt_register_test (s : Registry) (test : Ptr) : Except Fault Registry := do
  let h ← set_next s.heap test s.registered_tests_head
  .ok { heap := h, registered_tests_head := test }

/-- The start-up constructors: one `cwt_register_test` call per descriptor, in the given order. -/
def register_all (s : Registry) : List Ptr → Except Fault Registry
  | [] => .ok s
  | test :: rest => do
    let s ← cwt_register_test s test
    register_all s rest

/-- The C library `strcmp`: the bytes are compared as unsigned values up to the first
difference or the terminating zero; the end of the stored bytes reads as the terminator.
The result is the difference of the first differing bytes; the code only uses its sign. -/
def strcmp : List Nat → List Nat → Int
  | [], [] => 0
  | [], b :: _ => 0 - (b : Int)
  | a :: _, [] => (a : Int)
  | a :: s, b :: t => if a = b then (if a = 0 then 0 else strcmp s t) else (a : Int) - (b : Int)

/-- The text of a C string: the stored bytes before the first zero byte. -/
def cstr (s : List Nat) : List Nat := s.takeWhile (fun c => c ≠ 0)

/-- The value `compare_tests` computes from the two descriptors' strings. -/
def compare_keys (h : Heap) (t1 t2 : Ptr) : Int :=
  let cmp := strcmp (h.suite t1) (h.suite t2)
  if cmp ≠ 0 then cmp else strcmp (h.name t1) (h.name t2)

/-- `compare_tests` (lines 214-222): both descriptors are dereferenced. -/
def compare_tests (h : Heap) (t1 t2 : Ptr) : Except Fault Int :=
  if t1 = 0 ∨ t2 = 0 then .error .null_deref else .ok (compare_keys h t1 t2)

/-- The loop of `count_tests` (lines 207-210). -/
def count_loop (h : Heap) : Nat → Ptr → Nat → Except Fault Nat
  | 0, head, count => if head ≠ 0 then .error .out_of_fuel else .ok count
  | fuel + 1, head, count =>
    if head ≠ 0 then count_loop h fuel (h.next head) (count + 1) else .ok count

/-- `count_tests` (lines 204-212).  The `size_t` counter is a natural number: a list in
memory has fewer than `2^64` nodes. -/
def count_tests (fuel : Nat) (h : Heap) (head : Ptr) : Except Fault Nat :=
  count_loop h fuel head 0

/-- The `for` loop of `sort_tests` (lines 238-240): follow `next` the given number of times. -/
def skip_nodes (h : Heap) : Nat → Ptr → Except Fault Ptr
  | 0, right => .ok right
  | i + 1, right => do
    let right ← get_next h right
    skip_nodes h i right

/-- The `while (left && right)` loop of `sort_tests` (lines 256-267).
Returns the heap and the final `left`, `right` and `cur`. -/
def merge_loop : Nat → Heap → Ptr → Ptr → Ptr → Except Fault (Heap × Ptr × Ptr × Ptr)
  | 0, h, left, right, cur =>
    if left ≠ 0 ∧ right ≠ 0 then .error .out_of_fuel else .ok (h, left, right, cur)
  | fuel + 1, h, left, right, cur =>
    if left ≠ 0 ∧ right ≠ 0 then do
      let c ← compare_tests h left right
      if c < 0 then do
        let h ← set_next h cur left
        let left ← get_next h left
        let cur ← get_next h cur
        let h ← set_next h cur 0
        merge_loop fuel h left right cur
      else do
        let h ← set_next h cur right
        let right ← get_next h right
        let cur ← get_next h cur
        let h ← set_next h cur 0
        merge_loop fuel h left right cur
    else .ok (h, left, right, cur)

/-- `sort_tests` (lines 224-277).  The recursion is on `length`, as in the source; the merge
loop runs with `length` units of fuel. -/
def sort_tests (h : Heap) (head : Ptr) (length : Nat) : Except Fault (Heap × Ptr) :=
  if _h0 : length = 0 then .ok (h, 0)
  else if _h1 : length = 1 then do
    let h ← set_next h head 0
    .ok (h, head)
  else
    let left_length := length / 2
    match skip_nodes h left_length head with
    | .error e => .error e
    | .ok right =>
    match sort_tests h right (length - left_length) with
    | .error e => .error e
    | .ok (h, right) =>
    match sort_tests h head left_length with
    | .error e => .error e
    | .ok (h, left) => do
      let c ← compare_tests h left right
      let (head, left, right) ←
        (if c < 0 then do
          let n ← get_next h left
          pure (left, n, right)
        else do
          let n ← get_next h right
          pure (right, left, n) : Except Fault (Ptr × Ptr × Ptr))
      let h ← set_next h head 0
      let (h, left, right, cur) ← merge_loop length h left right head
      let h ← set_next h cur (if left ≠ 0 then left else right)
      .ok (h, head)
termination_by length
decreasing_by
  all_goals simp_wf
  all_goals omega

/-- The first statement of `main` (lines 339-340):
`registered_tests_head = sort_tests(registered_tests_head, count_tests(registered_tests_head))`. -/
def sort_registry (fuel : Nat) (s : Registry) : Except Fault Registry := do
  let n ← count_tests fuel s.heap s.registered_tests_head
  let (h, head) ← sort_tests s.heap s.registered_tests_head n
  .ok { heap := h, registered_tests_head := head }

/-! ## Running one test in a child process (lines 13-30, 41-81, 134-170, 310-335) -/

/-- The `status` member of `test_result` (lines 17-21). -/
structure Status where
  failed : Int
  exit_code : Int
  signal : Int
  deriving DecidableEq, Repr

/-- The value of one `test_result` (lines 13-24).  `log` is `none` for `NULL`, otherwise the
bytes of the allocated buffer. -/
structure test_result where
  test : Ptr
  log : Option (List Nat)
  status : Status
  next : Ptr
  deriving DecidableEq, Repr

/-- The memory holding the `test_result` blocks, and the addresses currently allocated. -/
structure ResultHeap where
  cell : Ptr → test_result
  live : List Ptr

/-- `WIFEXITED` of `<sys/wait.h>`: the low seven bits of the status are zero. -/
def WIFEXITED (wait_status : Nat) : Bool := wait_status % 128 == 0

/-- `WEXITSTATUS` of `<sys/wait.h>`: bits 8 to 15 of the status. -/
def WEXITSTATUS (wait_status : Nat) : Nat := wait_status / 256 % 256

/-- `WIFSIGNALED` of `<sys/wait.h>`: the low seven bits are neither zero (exited)
nor `0x7f` (stopped). -/
def WIFSIGNALED (wait_status : Nat) : Bool :=
  decide (1 ≤ wait_status % 128) && decide (wait_status % 128 ≤ 126)

/-- `WTERMSIG` of `<sys/wait.h>`: the low seven bits of the status. -/
def WTERMSIG (wait_status : Nat) : Nat := wait_status % 128

/-- `wait_for_child` (lines 41-57) on the record `result` points to; `err` and
`wait_status` are what `waitpid` returned and stored. -/
def wait_for_child (result : test_result) (err : Int) (wait_status : Nat) :
    Except Fault test_result :=
  if err < 0 then .error .died
  else if WIFEXITED wait_status then
    let result : test_result :=
      { result with status := { result.status with exit_code := (WEXITSTATUS wait_status : Int) } }
    .ok { result with
      status := { result.status with failed := if result.status.exit_code ≠ 0 then 1 else 0 } }
  else if WIFSIGNALED wait_status then
    let result : test_result :=
      { result with status := { result.status with signal := (WTERMSIG wait_status : Int) } }
    .ok { result with status := { result.status with failed := 1 } }
  else .error .died

/-- What one `read(fd, buf, sizeof(buf))` call on the pipe does: it delivers bytes, or
fails with `-1`.  The stream has ended (`read` returns `0`) when no call is left. -/
inductive ReadResult where
  | data (buf : List Nat)
  | failure
  deriving DecidableEq, Repr

/-- Modelled from the spec: `xrealloc` is declared in the absent `util.h`; as the
infrastructure helpers of §7 it either succeeds or aborts, and on success it is the C
library `realloc`: the block keeps its old bytes up to the new size, and the bytes beyond
them are indeterminate (`fill` here). -/
def xrealloc (fill : Nat) (block : Option (List Nat)) (size : Nat) : List Nat :=
  (block.getD [] ++ List.replicate size fill).take size

/-- The C library `memmove(dest + offset, src, src.length)` inside the block `dest`. -/
def memmove (dest : List Nat) (offset : Nat) (src : List Nat) : List Nat :=
  dest.take offset ++ src ++ dest.drop (offset + src.length)

/-- The loop of `readall_from_pipe` (lines 68-74), then `die_iferr` (line 75). -/
def read_loop (fill : Nat) : List ReadResult → Option (List Nat) → Nat →
    Except Fault (Option (List Nat) × Nat)
  | [], log, log_size => .ok (log, log_size)
  | .failure :: _, _, _ => .error .died
  | .data buf :: rest, log, log_size =>
    if buf.length > 0 then
      let new_log_size := log_size + buf.length
      let log := xrealloc fill log (new_log_size + 1)
      let log := memmove log log_size buf
      read_loop fill rest (some log) new_log_size
    else .ok (log, log_size)

/-- `readall_from_pipe` (lines 62-81): the buffer it returns, or `none` for `NULL`. -/
def readall_from_pipe (fill : Nat) (pipe : List ReadResult) : Except Fault (Option (List Nat)) := do
  let (log, log_size) ← read_loop fill pipe none 0
  match log with
  | some buf => .ok (some (buf.set log_size 0))
  | none => .ok none

/-- What the parent observes of one child: the results of its `read` calls on the pipe,
and what `waitpid` returns and stores. -/
structure ChildRun where
  reads : List ReadResult
  waitpid_ret : Int
  wait_status : Nat

/-- Everything the runner takes from outside `cwt_testrunner.c`. -/
structure Env where
  /-- The allocator `xmalloc`, declared in the absent `util.h`: given the allocated addresses
  it returns the address of the new block. -/
  xmalloc : List Ptr → Ptr
  /-- The value of bytes that `realloc` leaves indeterminate. -/
  fill : Nat
  /-- The C library `strsignal`. -/
  strsignal : Int → List Nat
  /-- What running the descriptor at an address in a forked child looks like from the parent. -/
  child : Ptr → ChildRun

/-- A record as `run_test` initialises it (lines 156-161). -/
def fresh_result (test : Ptr) : test_result :=
  { test := test, log := none, status := { failed := 0, exit_code := 0, signal := 0 }, next := 0 }

/-- The record `run_test` fills in for one descriptor (lines 156-164). -/
def run_test_record (env : Env) (test : Ptr) : Except Fault test_result := do
  let result := fresh_result test
  let log ← readall_from_pipe env.fill (env.child test).reads
  let result := { result with log := log }
  wait_for_child result (env.child test).waitpid_ret (env.child test).wait_status

/-- `run_test` (lines 134-170), with `pipe`, `fork` and `close` succeeding: the record is
stored in a new block, whose address is returned.  An allocator that hands out `NULL` is
taken to have aborted. -/
def run_test (env : Env) (rh : ResultHeap) (test : Ptr) : Except Fault (ResultHeap × Ptr) :=
  let result := env.xmalloc rh.live
  if result = 0 then .error .died
  else do
    let r ← run_test_record env test
    .ok ({ cell := Function.update rh.cell result r, live := result :: rh.live }, result)

/-- `free_test_result` (lines 26-30): the block is no longer allocated. -/
def free_test_result (rh : ResultHeap) (result : Ptr) : ResultHeap :=
  { rh with live := rh.live.erase result }

/-- Write `p->next = v` in a `test_result`. -/
def set_result_next (rh : ResultHeap) (p v : Ptr) : Except Fault ResultHeap :=
  if p = 0 then .error .null_deref
  else .ok { rh with cell := Function.update rh.cell p { rh.cell p with next := v } }

/-- The loop of `run_all_tests` (lines 314-333); `out` collects the progress characters. -/
def run_all_loop (env : Env) (h : Heap) : Nat → ResultHeap → Ptr → Ptr → Ptr → List Nat →
    Except Fault (ResultHeap × Ptr × List Nat)
  | 0, rh, cur, failed_results_head, _, out =>
    if cur ≠ 0 then .error .out_of_fuel else .ok (rh, failed_results_head, out)
  | fuel + 1, rh, cur, failed_results_head, results_tail, out =>
    if cur ≠ 0 then do
      let (rh, result) ← run_test env rh cur
      let out := out ++ [if (rh.cell result).status.failed ≠ 0 then 70 else 46]
      if (rh.cell result).status.failed = 0 then
        let rh := free_test_result rh result
        run_all_loop env h fuel rh (h.next cur) failed_results_head results_tail out
      else if failed_results_head = 0 then
        run_all_loop env h fuel rh (h.next cur) result result out
      else do
        let rh ← set_result_next rh results_tail result
        run_all_loop env h fuel rh (h.next cur) failed_results_head result out
    else .ok (rh, failed_results_head, out)

/-- `run_all_tests` (lines 310-335): the new result memory, `failed_results_head` and the
characters written to the standard output. -/
def run_all_tests (env : Env) (fuel : Nat) (h : Heap) (rh : ResultHeap) (tests_head : Ptr) :
    Except Fault (ResultHeap × Ptr × List Nat) :=
  run_all_loop env h fuel rh tests_head 0 0 []

/-! ## The child's side (lines 89-132, 147-150) -/

/-- `struct cwt_test_result` (`cwt_testlib.h`, lines 8-10). -/
structure cwt_test_result where
  failed : Int

/-- What the test body does once `forked_runner_main` calls it: it returns, having
changed `*result` as `runner` says, or a signal is raised while it runs. -/
inductive BodyOutcome where
  | returned (runner : cwt_test_result → cwt_test_result)
  | raised (signum : Nat)

/-- How a process ends: by `exit`, or killed by a signal. -/
inductive ProcessEnd where
  | exited (code : Int)
  | killed (signum : Nat)
  deriving DecidableEq, Repr

/-- The signals `forked_runner_main` installs the handler for (lines 121-127):
`SIGHUP`, `SIGINT`, `SIGQUIT`, `SIGABRT`, `SIGFPE`, `SIGSEGV`, `SIGTERM`. -/
def handled_signals : List Nat := [1, 2, 3, 6, 8, 11, 15]

/-- `forked_runner_sig_handler` (lines 89-97): the backtrace is printed, then `exit(1)`. -/
def forked_runner_sig_handler (_signum : Nat) : ProcessEnd := .exited 1

/-- The end of `forked_runner_main` (lines 129-131), for a body that returns: the result
starts zeroed, the body runs on it, and the exit code is `result.failed ? 1 : 0`. -/
def forked_runner_main (runner : cwt_test_result → cwt_test_result) : Int :=
  let result : cwt_test_result := { failed := 0 }
  let result := runner result
  if result.failed ≠ 0 then 1 else 0

/-- The child branch of `run_test` (lines 147-150): `exit(forked_runner_main(...))`, with a
signal raised in the body going to the installed handler, or else killing the process (the
default action of the fatal signals). -/
def child_process : BodyOutcome → ProcessEnd
  | .returned runner => .exited (forked_runner_main runner)
  | .raised signum =>
    if signum ∈ handled_signals then forked_runner_sig_handler signum else .killed signum

/-- The status `waitpid` stores for a process that ended this way: the low byte of the
exit code in bits 8 to 15, or the number of the killing signal in the low seven bits. -/
def wait_status_of : ProcessEnd → Nat
  | .exited code => (code % 256).toNat * 256
  | .killed signum => signum

/-! ## Printing and `main` (lines 174-202, 279-308, 337-349) -/

/-- The bytes of a string constant. -/
def bytes (s : String) : List Nat := s.toList.map Char.toNat

/-- Subtraction of `size_t` values (64 bits). -/
def size_sub (a b : Nat) : Nat := (a % 2 ^ 64 + 2 ^ 64 - b % 2 ^ 64) % 2 ^ 64

/-- The pad counts `print_header` computes (lines 184-186): `left_pad_len`, `right_pad_len`. -/
def header_pads (header_len text_len : Nat) : Nat × Nat :=
  let header_len := size_sub header_len 2
  let left_pad_len := size_sub header_len text_len / 2
  let right_pad_len := size_sub (size_sub header_len text_len) left_pad_len
  (left_pad_len, right_pad_len)

/-- The loops `while (pad_len-- > 0) putchar(pad)` (lines 188-190, 198-200). -/
def pad_loop : Nat → Nat → List Nat
  | 0, _ => []
  | pad_len + 1, pad => pad :: pad_loop pad_len pad

/-- The C library `vsnprintf(NULL, 0, ...)`: the length of the formatted text, negative
when it does not fit an `int`. -/
def vsnprintf (text : List Nat) : Int := if text.length < 2 ^ 31 then (text.length : Int) else -1

/-- `print_header` (lines 174-202) for the formatted text `text`: the bytes written. -/
def print_header (header_len : Nat) (pad : Nat) (text : List Nat) : Except Fault (List Nat) :=
  let sprintf_ret := vsnprintf text
  if sprintf_ret < 0 then .error .died
  else
    let text_len := sprintf_ret.toNat
    let pads := header_pads header_len text_len
    .ok (pad_loop pads.1 pad ++ [32] ++ text ++ [32] ++ pad_loop pads.2 pad ++ [10])

/-- What `printf("%s\n", cur->log ? cur->log : "")` writes (line 291): the text of the
log up to its terminating zero, then a newline. -/
def print_log (log : Option (List Nat)) : List Nat :=
  (match log with
    | some log => cstr log
    | none => []) ++ [10]

/-- What `printf("Terminated because of signal %d: %s\n", ...)` writes (lines 294-296). -/
def terminated_line (env : Env) (signal : Int) : List Nat :=
  bytes "Terminated because of signal " ++ bytes (toString signal) ++ bytes ": " ++
    cstr (env.strsignal signal) ++ [10]

/-- One failure section of `print_results` (lines 289-298) for the record `cur`. -/
def print_failure (env : Env) (h : Heap) (cur : test_result) : Except Fault (List Nat) :=
  if cur.test = 0 then .error .null_deref
  else do
    let header ← print_header 50 95 (cstr (h.suite cur.test) ++ bytes " :: " ++ cstr (h.name cur.test))
    let body := print_log cur.log
    let terminated :=
      if cur.status.signal ≠ 0 then terminated_line env cur.status.signal else []
    .ok (header ++ body ++ terminated ++ [10, 10])

/-- The loop of `print_results` (lines 287-303). -/
def print_results_loop (env : Env) (h : Heap) : Nat → ResultHeap → Ptr → Nat → List Nat →
    Except Fault (ResultHeap × Nat × List Nat)
  | 0, rh, cur, failed_tests_count, out =>
    if cur ≠ 0 then .error .out_of_fuel else .ok (rh, failed_tests_count, out)
  | fuel + 1, rh, cur, failed_tests_count, out =>
    if cur ≠ 0 then do
      let failure ← print_failure env h (rh.cell cur)
      let next := (rh.cell cur).next
      let rh := free_test_result rh cur
      print_results_loop env h fuel rh next (failed_tests_count + 1) (out ++ failure)
    else .ok (rh, failed_tests_count, out)

/-- What `printf(">> %zu tests failed, %zu total.\n", ...)` writes (lines 306-307). -/
def summary_line (failed_tests_count tests_count : Nat) : List Nat :=
  bytes ">> " ++ bytes (toString failed_tests_count) ++ bytes " tests failed, " ++
    bytes (toString tests_count) ++ bytes " total.\n"

/-- `print_results` (lines 279-308): the bytes written to the standard output. -/
def print_results (env : Env) (fuel : Nat) (h : Heap) (rh : ResultHeap)
    (tests_head failed_results_head : Ptr) : Except Fault (ResultHeap × List Nat) := do
  let banner ← print_header 50 61 (bytes "FAILURES")
  let (rh, failed_tests_count, out) ← print_results_loop env h fuel rh failed_results_head 0 banner
  let tests_count ← count_tests fuel h tests_head
  .ok (rh, out ++ summary_line failed_tests_count tests_count)

/-- `main` (lines 337-349): the exit code and the bytes written to the standard output. -/
def main (env : Env) (fuel : Nat) (s : Registry) (rh : ResultHeap) : Except Fault (Int × List Nat) := do
  let s ← sort_registry fuel s
  let (rh, failed_results_head, progress) ←
    run_all_tests env fuel s.heap rh s.registered_tests_head
  let (_, report) ← print_results env fuel s.heap rh s.registered_tests_head failed_results_head
  .ok (0, progress ++ [10] ++ report)

/-! ## The vocabulary of the statements -/

/-- The nodes `l` are chained by `next` from `p` up to, and excluding, `q`; none is `NULL`. -/
def lseg (h : Heap) : Ptr → List Ptr → Ptr → Prop
  | p, [], q => p = q
  | p, a :: l, q => p = a ∧ a ≠ 0 ∧ lseg h (h.next a) l q

instance lseg_decidable (h : Heap) : ∀ (p : Ptr) (l : List Ptr) (q : Ptr), Decidable (lseg h p l q)
  | p, [], q => inferInstanceAs (Decidable (p = q))
  | p, a :: l, q =>
    have := lseg_decidable h (h.next a) l q
    inferInstanceAs (Decidable (p = a ∧ a ≠ 0 ∧ lseg h (h.next a) l q))

/-- A well-formed list: a `NULL`-terminated chain of pairwise distinct nodes. -/
def is_list (h : Heap) (head : Ptr) (l : List Ptr) : Prop :=
  lseg h head l 0 ∧ l.Nodup

instance is_list_decidable (h : Heap) (head : Ptr) (l : List Ptr) : Decidable (is_list h head l) :=
  inferInstanceAs (Decidable (lseg h head l 0 ∧ l.Nodup))

/-- The records `l` are chained by `next` from `p` up to, and excluding, `q`; none is `NULL`. -/
def rseg (rh : ResultHeap) : Ptr → List Ptr → Ptr → Prop
  | p, [], q => p = q
  | p, a :: l, q => p = a ∧ a ≠ 0 ∧ rseg rh (rh.cell a).next l q

instance rseg_decidable (rh : ResultHeap) :
    ∀ (p : Ptr) (l : List Ptr) (q : Ptr), Decidable (rseg rh p l q)
  | p, [], q => inferInstanceAs (Decidable (p = q))
  | p, a :: l, q =>
    have := rseg_decidable rh (rh.cell a).next l q
    inferInstanceAs (Decidable (p = a ∧ a ≠ 0 ∧ rseg rh (rh.cell a).next l q))

/-- Whether the record `run_test` produces for a descriptor has `status.failed` set. -/
def test_failed (env : Env) (test : Ptr) : Bool :=
  match run_test_record env test with
  | .ok r => decide (r.status.failed ≠ 0)
  | .error _ => false

/-- Two records agree in everything but `next`. -/
def same_data (r r' : test_result) : Prop :=
  r.test = r'.test ∧ r.log = r'.log ∧ r.status = r'.status

/-- The line `print_header(50, '=', "FAILURES")` writes. -/
def failures_banner : List Nat := bytes "==================== FAILURES ====================\n"

/-- The merge step of `sort_tests` on lists: the left head is taken when it compares
strictly below the right head, otherwise the right head is taken. -/
def merge_lists (cmp : Ptr → Ptr → Int) : List Ptr → List Ptr → List Ptr
  | [], r => r
  | a :: l, [] => a :: l
  | a :: l, b :: r =>
    if cmp a b < 0 then a :: merge_lists cmp l (b :: r) else b :: merge_lists cmp (a :: l) r
termination_by l r => l.length + r.length

/-- The recursion of `sort_tests` on lists: the first `length / 2` nodes form the left half. -/
def sort_lists (cmp : Ptr → Ptr → Int) (l : List Ptr) : List Ptr :=
  if h : l.length < 2 then l
  else merge_lists cmp (sort_lists cmp (l.take (l.length / 2))) (sort_lists cmp (l.drop (l.length / 2)))
termination_by l.length
decreasing_by
  all_goals simp_wf
  all_goals omega

/-- What the sort needs of a comparison: swapping the arguments negates the result,
and "not above" is transitive. -/
def IsOrdering (cmp : Ptr → Ptr → Int) : Prop :=
  (∀ a b, cmp b a = - cmp a b) ∧ (∀ a b c, cmp a b ≤ 0 → cmp b c ≤ 0 → cmp a c ≤ 0)

/-! ## Scenarios -/

/-- The descriptors of the scenario of three tests: `(B, t2)` at address 1, `(A, t1)` at
address 2 and `(A, t2)` at address 3, none of them linked. -/
def scenario_memory : Heap :=
  { next := fun _ => 0,
    suite := fun p => if p = 1 then bytes "B" else bytes "A",
    name := fun p => if p = 2 then bytes "t1" else bytes "t2" }

/-- The runner before any constructor has run: the static head is `NULL`. -/
def scenario_start : Registry := { heap := scenario_memory, registered_tests_head := 0 }

/-- The registry after the constructors have registered the descriptors at 1, 2 and 3,
in this order: each one points to the one registered before it. -/
def scenario_registered : Registry :=
  { heap :=
      { scenario_memory with
        next := Function.update (Function.update (Function.update (fun _ => 0) 1 0) 2 1) 3 2 },
    registered_tests_head := 3 }

/-- A suite name of 23 bytes `a`, zero-terminated. -/
def long_suite : List Nat := List.replicate 23 97 ++ [0]

/-- A test name of 23 bytes `b`, zero-terminated. -/
def long_name : List Nat := List.replicate 23 98 ++ [0]

/-- Descriptors that all carry the suite `A` and the name `t`. -/
def twin_memory : Heap :=
  { next := fun _ => 0, suite := fun _ => bytes "A", name := fun _ => bytes "t" }

/-- An allocator for the scenarios: the address above every allocated one. -/
def bump_alloc (live : List Ptr) : Ptr := live.foldr max 0 + 1

/-- The record memory before the run: nothing allocated. -/
def empty_results : ResultHeap :=
  { cell := fun _ =>
      { test := 0, log := none, status := { failed := 0, exit_code := 0, signal := 0 }, next := 0 },
    live := [] }

/-- The collaborators of the scenarios: the bump allocator, `0xAA` in fresh memory, an empty
signal description, and children that write nothing and exit with code `0`. -/
def quiet_env : Env :=
  { xmalloc := bump_alloc, fill := 170, strsignal := fun _ => [],
    child := fun _ => { reads := [], waitpid_ret := 0, wait_status := 0 } }

/-- Collaborators under which the descriptor at address 3 writes `boom` and exits with
code `1`, and every other one writes nothing and exits with code `0`. -/
def boom_env : Env :=
  { xmalloc := bump_alloc, fill := 170, strsignal := fun _ => [],
    child := fun p =>
      if p = 3 then { reads := [ReadResult.data (bytes "boom")], waitpid_ret := 0, wait_status := 256 }
      else { reads := [], waitpid_ret := 0, wait_status := 0 } }

theorem get_next_ok (h : Heap) {p : Ptr} (hp : p ≠ 0) : get_next h p = .ok (h.next p) := by
  simp [get_next, hp]

theorem set_next_ok (h : Heap) {p : Ptr} (v : Ptr) (hp : p ≠ 0) :
    set_next h p v = .ok { h with next := Function.update h.next p v } := by
  simp [set_next, hp]

theorem compare_tests_ok (h : Heap) {a b : Ptr} (ha : a ≠ 0) (hb : b ≠ 0) :
    compare_tests h a b = .ok (compare_keys h a b) := by
  simp [compare_tests, ha, hb]

theorem compare_keys_congr {h h' : Heap} (hs : h'.suite = h.suite) (hn : h'.name = h.name) :
    compare_keys h' = compare_keys h := by
  funext a b
  simp [compare_keys, hs, hn]

theorem lseg_frame {h h' : Heap} : ∀ {l : List Ptr} {p q : Ptr},
    (∀ x ∈ l, h'.next x = h.next x) → lseg h p l q → lseg h' p l q
  | [], _, _, _, hl => hl
  | a :: l, _, _, hf, hl => by
    obtain ⟨hp, ha, hr⟩ := hl
    refine ⟨hp, ha, ?_⟩
    rw [hf a (List.mem_cons_self a l)]
    exact lseg_frame (fun x hx => hf x (List.mem_cons_of_mem a hx)) hr

theorem lseg_ne_zero {h : Heap} : ∀ {l : List Ptr} {p q : Ptr}, lseg h p l q → ∀ x ∈ l, x ≠ 0
  | [], _, _, _, x, hx => by simp at hx
  | a :: l, _, _, hl, x, hx => by
    obtain ⟨_, ha, hr⟩ := hl
    rcases List.mem_cons.mp hx with rfl | hx
    · exact ha
    · exact lseg_ne_zero hr x hx

theorem lseg_append {h : Heap} : ∀ {l1 l2 : List Ptr} {p q : Ptr},
    lseg h p (l1 ++ l2) q ↔ ∃ m, lseg h p l1 m ∧ lseg h m l2 q
  | [], l2, p, q => by simp [lseg]
  | a :: l1, l2, p, q => by
    simp only [List.cons_append, lseg]
    constructor
    · rintro ⟨hp, ha, hr⟩
      obtain ⟨m, h1, h2⟩ := lseg_append.mp hr
      exact ⟨m, ⟨hp, ha, h1⟩, h2⟩
    · rintro ⟨m, ⟨hp, ha, h1⟩, h2⟩
      exact ⟨hp, ha, lseg_append.mpr ⟨m, h1, h2⟩⟩

theorem lseg_skip_nodes {h : Heap} : ∀ {l : List Ptr} {p q : Ptr},
    lseg h p l q → skip_nodes h l.length p = .ok q
  | [], _, _, hl => by simp [skip_nodes, lseg] at *; exact hl
  | a :: l, p, q, hl => by
    obtain ⟨hp, ha, hr⟩ := hl
    subst hp
    simp only [List.length_cons, skip_nodes, get_next_ok h ha]
    exact lseg_skip_nodes hr

theorem lseg_null_iff {h : Heap} {l : List Ptr} {p : Ptr} (hl : lseg h p l 0) :
    p = 0 ↔ l = [] := by
  cases l with
  | nil => simpa [lseg] using hl
  | cons a l =>
    obtain ⟨hp, ha, _⟩ := hl
    simp [hp, ha]

theorem lseg_unique {h : Heap} : ∀ {l l' : List Ptr} {p : Ptr},
    lseg h p l 0 → lseg h p l' 0 → l = l'
  | [], [], _, _, _ => rfl
  | [], a :: l', p, h1, h2 => by
    have h1' : p = 0 := h1
    obtain ⟨hp, ha, _⟩ := h2
    exact absurd (hp.symm.trans h1') ha
  | a :: l, [], p, h1, h2 => by
    have h2' : p = 0 := h2
    obtain ⟨hp, ha, _⟩ := h1
    exact absurd (hp.symm.trans h2') ha
  | a :: l, b :: l', p, h1, h2 => by
    obtain ⟨hp, _, hr⟩ := h1
    obtain ⟨hp', _, hr'⟩ := h2
    have hab : a = b := hp.symm.trans hp'
    subst hab
    rw [lseg_unique hr hr']

/-- A chain that reaches `NULL` visits no node twice. -/
theorem lseg_nodup {h : Heap} : ∀ {l : List Ptr} {p : Ptr}, lseg h p l 0 → l.Nodup
  | [], _, _ => List.nodup_nil
  | a :: l, _, hl => by
    obtain ⟨_, _, hr⟩ := hl
    refine List.nodup_cons.mpr ⟨?_, lseg_nodup hr⟩
    intro hmem
    obtain ⟨l1, l2, rfl⟩ := List.append_of_mem hmem
    obtain ⟨m, _, h2⟩ := lseg_append.mp hr
    obtain ⟨hm, _, h3⟩ := h2
    have := congrArg List.length (lseg_unique hr h3)
    simp at this
    omega

theorem is_list_of_lseg {h : Heap} {l : List Ptr} {p : Ptr} (hl : lseg h p l 0) : is_list h p l :=
  ⟨hl, lseg_nodup hl⟩

theorem count_loop_spec {h : Heap} : ∀ {l : List Ptr} {p : Ptr} (fuel c : Nat),
    lseg h p l 0 → l.length ≤ fuel → count_loop h fuel p c = .ok (c + l.length)
  | [], p, fuel, c, hl, _ => by
    have hp : p = 0 := hl
    subst hp
    cases fuel <;> simp [count_loop]
  | a :: l, p, fuel, c, hl, hf => by
    obtain ⟨hp, ha, hr⟩ := hl
    subst hp
    obtain ⟨f, rfl⟩ : ∃ f, fuel = f + 1 := ⟨fuel - 1, by simp at hf; omega⟩
    simp only [count_loop, ne_eq, ha, not_false_eq_true, if_true]
    rw [count_loop_spec f (c + 1) hr (by simp at hf; omega)]
    simp only [List.length_cons]
    congr 1
    omega

theorem count_tests_spec {h : Heap} {l : List Ptr} {p : Ptr} (fuel : Nat)
    (hl : lseg h p l 0) (hf : l.length ≤ fuel) : count_tests fuel h p = .ok l.length := by
  rw [count_tests, count_loop_spec fuel 0 hl hf]
  simp

/-- Registering distinct non-`NULL` descriptors pushes them, last one first, in front of
the list already there. -/
theorem register_all_spec : ∀ (ts : List Ptr) (s : Registry) (l : List Ptr),
    lseg s.heap s.registered_tests_head l 0 → ts.Nodup → (∀ t ∈ ts, t ≠ 0) → List.Disjoint ts l →
    ∃ s', register_all s ts = .ok s' ∧
      lseg s'.heap s'.registered_tests_head (ts.reverse ++ l) 0 ∧
      s'.heap.suite = s.heap.suite ∧ s'.heap.name = s.heap.name
  | [], s, l, hl, _, _, _ => ⟨s, rfl, by simpa using hl, rfl, rfl⟩
  | t :: ts, s, l, hl, hnd, hnz, hdisj => by
    have ht : t ≠ 0 := hnz t (List.mem_cons_self _ _)
    have htl : t ∉ l := fun e => hdisj (List.mem_cons_self _ _) e
    have htts : t ∉ ts := (List.nodup_cons.mp hnd).1
    let s1 : Registry :=
      { heap := { s.heap with next := Function.update s.heap.next t s.registered_tests_head },
        registered_tests_head := t }
    have hl1 : lseg s1.heap s1.registered_tests_head (t :: l) 0 := by
      refine ⟨rfl, ht, ?_⟩
      simp only [s1, Function.update_same]
      exact lseg_frame (fun x hx => by
        have : x ≠ t := fun e => htl (e ▸ hx)
        simp [Function.update, this]) hl
    obtain ⟨s', hrun, hseg, hs, hn⟩ := register_all_spec ts s1 (t :: l) hl1
      (List.nodup_cons.mp hnd).2 (fun x hx => hnz x (List.mem_cons_of_mem _ hx))
      (fun x hx hx' => by
        rcases List.mem_cons.mp hx' with rfl | hx'
        · exact htts hx
        · exact hdisj (List.mem_cons_of_mem _ hx) hx')
    refine ⟨s', ?_, ?_, hs, hn⟩
    · simp only [register_all, cwt_register_test, set_next_ok _ _ ht, bind, Except.bind]
      exact hrun
    · simpa using hseg

/-! ## The list-level sort -/

theorem merge_lists_nil_left (cmp : Ptr → Ptr → Int) (r : List Ptr) : merge_lists cmp [] r = r := by
  rw [merge_lists]

theorem merge_lists_nil_right (cmp : Ptr → Ptr → Int) (l : List Ptr) : merge_lists cmp l [] = l := by
  cases l <;> rw [merge_lists]

theorem merge_lists_cons (cmp : Ptr → Ptr → Int) (a b : Ptr) (l r : List Ptr) :
    merge_lists cmp (a :: l) (b :: r) =
      if cmp a b < 0 then a :: merge_lists cmp l (b :: r) else b :: merge_lists cmp (a :: l) r := by
  rw [merge_lists]

theorem merge_lists_perm (cmp : Ptr → Ptr → Int) : ∀ (n : Nat) (l r : List Ptr),
    l.length + r.length = n → (merge_lists cmp l r).Perm (l ++ r) := by
  intro n
  induction n with
  | zero =>
    intro l r hlen
    have hl : l = [] := List.length_eq_zero.mp (by omega)
    subst hl
    simp [merge_lists_nil_left]
  | succ n ih =>
    intro l r hlen
    cases l with
    | nil => simp [merge_lists_nil_left]
    | cons a l =>
      cases r with
      | nil => simp [merge_lists_nil_right]
      | cons b r =>
        rw [merge_lists_cons]
        split
        · exact (ih l (b :: r) (by simp at hlen ⊢; omega)).cons a
        · have := (ih (a :: l) r (by simp at hlen ⊢; omega)).cons b
          exact this.trans (by simpa using (@List.perm_middle _ b (a :: l) r).symm)

theorem sort_lists_small (cmp : Ptr → Ptr → Int) {l : List Ptr} (hl : l.length < 2) :
    sort_lists cmp l = l := by
  rw [sort_lists, dif_pos hl]

theorem sort_lists_split (cmp : Ptr → Ptr → Int) {l : List Ptr} (hl : ¬ l.length < 2) :
    sort_lists cmp l = merge_lists cmp (sort_lists cmp (l.take (l.length / 2)))
      (sort_lists cmp (l.drop (l.length / 2))) := by
  rw [sort_lists, dif_neg hl]

theorem sort_lists_perm (cmp : Ptr → Ptr → Int) : ∀ (n : Nat) (l : List Ptr),
    l.length = n → (sort_lists cmp l).Perm l := by
  intro n
  induction n using Nat.strong_induction_on with
  | _ n ih =>
    intro l hlen
    by_cases hl : l.length < 2
    · rw [sort_lists_small cmp hl]
    · rw [sort_lists_split cmp hl]
      have h1 := ih (l.take (l.length / 2)).length (by simp; omega) _ rfl
      have h2 := ih (l.drop (l.length / 2)).length (by simp; omega) _ rfl
      refine (merge_lists_perm cmp _ _ _ rfl).trans ?_
      exact (h1.append h2).trans (by rw [List.take_append_drop])

/-! ## `sort_tests` refines the list-level sort -/

/-- The merge loop followed by the final attachment (lines 256-274): from `cur` on, the
heap holds the merge of the two remaining chains; nothing else is written. -/
theorem merge_loop_spec : ∀ (fuel : Nat) (L R : List Ptr) (h : Heap) (left right cur : Ptr),
    L.length + R.length ≤ fuel → lseg h left L 0 → lseg h right R 0 → cur ≠ 0 →
    cur ∉ L → cur ∉ R → L.Nodup → R.Nodup → List.Disjoint L R →
    ∃ h1 l1 r1 c1 h2, merge_loop fuel h left right cur = .ok (h1, l1, r1, c1) ∧
      set_next h1 c1 (if l1 ≠ 0 then l1 else r1) = .ok h2 ∧
      lseg h2 (h2.next cur) (merge_lists (compare_keys h) L R) 0 ∧
      (∀ x, x ≠ cur → x ∉ L → x ∉ R → h2.next x = h.next x) ∧
      h2.suite = h.suite ∧ h2.name = h.name := by
  intro fuel
  induction fuel with
  | zero =>
    intro L R h left right cur hfuel hL hR hcur hcL hcR _ _ _
    have hL0 : L = [] := by
      cases L with
      | nil => rfl
      | cons a L => simp at hfuel
    have hR0 : R = [] := by
      cases R with
      | nil => rfl
      | cons a R => simp at hfuel
    subst hL0 hR0
    have hl : left = 0 := hL
    have hr : right = 0 := hR
    subst hl hr
    refine ⟨h, 0, 0, cur, _, by simp [merge_loop], set_next_ok h _ hcur, ?_, ?_, rfl, rfl⟩
    · simp [merge_lists_nil_left, lseg]
    · intro x hx _ _
      simp [Function.update, hx]
  | succ fuel ih =>
    intro L R h left right cur hfuel hL hR hcur hcL hcR hnL hnR hdisj
    cases L with
    | nil =>
      have hl : left = 0 := hL
      subst hl
      refine ⟨h, 0, right, cur, _, by simp [merge_loop], set_next_ok h _ hcur, ?_, ?_, rfl, rfl⟩
      · simp only [merge_lists_nil_left, ne_eq, not_true_eq_false, ↓reduceIte,
          Function.update_same]
        exact lseg_frame (fun x hx => by
          have : x ≠ cur := fun e => hcR (e ▸ hx)
          simp [Function.update, this]) hR
      · intro x hx _ _
        simp [Function.update, hx]
    | cons a L =>
      obtain ⟨hla, ha, hLt⟩ := hL
      subst hla
      cases R with
      | nil =>
        have hr : right = 0 := hR
        subst hr
        refine ⟨h, left, 0, cur, _, by simp [merge_loop], set_next_ok h _ hcur, ?_, ?_, rfl, rfl⟩
        · simp only [merge_lists_nil_right, ne_eq, ha, not_false_eq_true, ↓reduceIte,
            Function.update_same]
          exact lseg_frame (fun x hx => by
            have : x ≠ cur := fun e => hcL (e ▸ hx)
            simp [Function.update, this]) (show lseg h left (left :: L) 0 from ⟨rfl, ha, hLt⟩)
        · intro x hx _ _
          simp [Function.update, hx]
      | cons b R =>
        obtain ⟨hrb, hb, hRt⟩ := hR
        subst hrb
        have hca : cur ≠ left := fun e => hcL (e ▸ List.mem_cons_self _ _)
        have hcb : cur ≠ right := fun e => hcR (e ▸ List.mem_cons_self _ _)
        have hcL' : cur ∉ L := fun e => hcL (List.mem_cons_of_mem _ e)
        have hcR' : cur ∉ R := fun e => hcR (List.mem_cons_of_mem _ e)
        have haL : left ∉ L := (List.nodup_cons.mp hnL).1
        have hbR : right ∉ R := (List.nodup_cons.mp hnR).1
        have haR : left ∉ right :: R := fun e => hdisj (List.mem_cons_self _ _) e
        have hbL : right ∉ left :: L := fun e => hdisj e (List.mem_cons_self _ _)
        by_cases hc : compare_keys h left right < 0
        · -- the left head is linked behind `cur`
          let h' : Heap := { h with next := Function.update (Function.update h.next cur left) left 0 }
          have hks : compare_keys h' = compare_keys h := compare_keys_congr rfl rfl
          have hL' : lseg h' (h.next left) L 0 := lseg_frame (fun x hx => by
            have h1 : x ≠ left := fun e => haL (e ▸ hx)
            have h2 : x ≠ cur := fun e => hcL' (e ▸ hx)
            simp [h', Function.update, h1, h2]) hLt
          have hR' : lseg h' right (right :: R) 0 := lseg_frame (fun x hx => by
            have h1 : x ≠ left := fun e => haR (e ▸ hx)
            have h2 : x ≠ cur := fun e => hcR (e ▸ hx)
            simp [h', Function.update, h1, h2]) (show lseg h right (right :: R) 0 from ⟨rfl, hb, hRt⟩)
          obtain ⟨h1, l1, r1, c1, h2, hrun, hset, hseg, hfr, hs, hn⟩ :=
            ih L (right :: R) h' (h.next left) right left
              (by simp at hfuel ⊢; omega) hL' hR' ha haL haR (List.nodup_cons.mp hnL).2 hnR
              (fun x hx hx' => hdisj (List.mem_cons_of_mem _ hx) hx')
          refine ⟨h1, l1, r1, c1, h2, ?_, hset, ?_, ?_, hs, hn⟩
          · rw [← hrun]
            simp [merge_loop, ha, hb, compare_tests_ok, hc, set_next_ok, get_next_ok, hcur,
              bind, Except.bind, hca, Function.update, h', Ne.symm hca]
          · rw [merge_lists_cons, if_pos hc]
            have hcn : h2.next cur = left := by
              rw [hfr cur hca hcL' hcR]
              simp [h', Function.update, hca]
            rw [hcn]
            refine ⟨rfl, ha, ?_⟩
            rw [← hks]
            exact hseg
          · intro x hx hxL hxR
            have hxa : x ≠ left := fun e => hxL (e ▸ List.mem_cons_self _ _)
            rw [hfr x hxa (fun e => hxL (List.mem_cons_of_mem _ e)) hxR]
            simp [h', Function.update, hxa, hx]
        · -- the right head is linked behind `cur`
          let h' : Heap := { h with next := Function.update (Function.update h.next cur right) right 0 }
          have hks : compare_keys h' = compare_keys h := compare_keys_congr rfl rfl
          have hR' : lseg h' (h.next right) R 0 := lseg_frame (fun x hx => by
            have h1 : x ≠ right := fun e => hbR (e ▸ hx)
            have h2 : x ≠ cur := fun e => hcR' (e ▸ hx)
            simp [h', Function.update, h1, h2]) hRt
          have hL' : lseg h' left (left :: L) 0 := lseg_frame (fun x hx => by
            have h1 : x ≠ right := fun e => hbL (e ▸ hx)
            have h2 : x ≠ cur := fun e => hcL (e ▸ hx)
            simp [h', Function.update, h1, h2]) (show lseg h left (left :: L) 0 from ⟨rfl, ha, hLt⟩)
          obtain ⟨h1, l1, r1, c1, h2, hrun, hset, hseg, hfr, hs, hn⟩ :=
            ih (left :: L) R h' left (h.next right) right
              (by simp at hfuel ⊢; omega) hL' hR' hb hbL hbR hnL (List.nodup_cons.mp hnR).2
              (fun x hx hx' => hdisj hx (List.mem_cons_of_mem _ hx'))
          refine ⟨h1, l1, r1, c1, h2, ?_, hset, ?_, ?_, hs, hn⟩
          · rw [← hrun]
            simp [merge_loop, ha, hb, compare_tests_ok, hc, set_next_ok, get_next_ok, hcur,
              bind, Except.bind, hcb, Function.update, h', Ne.symm hcb]
          · rw [merge_lists_cons, if_neg hc]
            have hcn : h2.next cur = right := by
              rw [hfr cur hcb hcL hcR']
              simp [h', Function.update, hcb]
            rw [hcn]
            refine ⟨rfl, hb, ?_⟩
            rw [← hks]
            exact hseg
          · intro x hx hxL hxR
            have hxb : x ≠ right := fun e => hxR (e ▸ List.mem_cons_self _ _)
            rw [hfr x hxb hxL (fun e => hxR (List.mem_cons_of_mem _ e))]
            simp [h', Function.update, hxb, hx]

/-- The first comparison, the merge loop and the final attachment of `sort_tests`
(lines 245-276), run on two sorted non-empty chains. -/
theorem merge_phase_spec (n : Nat) (h : Heap) (a b : Ptr) (L R : List Ptr)
    (hfuel : L.length + R.length + 1 ≤ n)
    (hL : lseg h a (a :: L) 0) (hR : lseg h b (b :: R) 0)
    (hnL : (a :: L).Nodup) (hnR : (b :: R).Nodup) (hdisj : List.Disjoint (a :: L) (b :: R)) :
    ∃ h' p,
      (do
        let c ← compare_tests h a b
        let (head, left, right) ←
          (if c < 0 then do
            let n ← get_next h a
            pure (a, n, b)
          else do
            let n ← get_next h b
            pure (b, a, n) : Except Fault (Ptr × Ptr × Ptr))
        let h ← set_next h head 0
        let (h, left, right, cur) ← merge_loop n h left right head
        let h ← set_next h cur (if left ≠ 0 then left else right)
        .ok (h, head) : Except Fault (Heap × Ptr)) = .ok (h', p) ∧
      lseg h' p (merge_lists (compare_keys h) (a :: L) (b :: R)) 0 ∧
      (∀ x, x ∉ a :: L → x ∉ b :: R → h'.next x = h.next x) ∧
      h'.suite = h.suite ∧ h'.name = h.name := by
  obtain ⟨_, ha, hLt⟩ := hL
  obtain ⟨_, hb, hRt⟩ := hR
  have haL : a ∉ L := (List.nodup_cons.mp hnL).1
  have hbR : b ∉ R := (List.nodup_cons.mp hnR).1
  have haR : a ∉ b :: R := fun e => hdisj (List.mem_cons_self _ _) e
  have hbL : b ∉ a :: L := fun e => hdisj e (List.mem_cons_self _ _)
  by_cases hc : compare_keys h a b < 0
  · let h3 : Heap := { h with next := Function.update h.next a 0 }
    have hL3 : lseg h3 (h.next a) L 0 := lseg_frame (fun x hx => by
      have h1 : x ≠ a := fun e => haL (e ▸ hx)
      simp [h3, Function.update, h1]) hLt
    have hR3 : lseg h3 b (b :: R) 0 := lseg_frame (fun x hx => by
      have h1 : x ≠ a := fun e => haR (e ▸ hx)
      simp [h3, Function.update, h1]) (show lseg h b (b :: R) 0 from ⟨rfl, hb, hRt⟩)
    obtain ⟨h4, l1, r1, c1, h5, hrun, hset, hseg, hfr, hs, hn⟩ :=
      merge_loop_spec n L (b :: R) h3 (h.next a) b a (by simp; omega) hL3 hR3 ha haL haR
        (List.nodup_cons.mp hnL).2 hnR (fun x hx hx' => hdisj (List.mem_cons_of_mem _ hx) hx')
    refine ⟨h5, a, ?_, ?_, ?_, hs, hn⟩
    · simp only [compare_tests_ok h ha hb, bind, Except.bind, hc, if_true, get_next_ok h ha,
        pure, Except.pure, set_next_ok h _ ha]
      simp only [h3] at hrun
      rw [hrun]
      simp only [hset]
    · rw [merge_lists_cons, if_pos hc]
      exact ⟨rfl, ha, hseg⟩
    · intro x hxL hxR
      have hxa : x ≠ a := fun e => hxL (e ▸ List.mem_cons_self _ _)
      rw [hfr x hxa (fun e => hxL (List.mem_cons_of_mem _ e)) hxR]
      simp [h3, Function.update, hxa]
  · let h3 : Heap := { h with next := Function.update h.next b 0 }
    have hR3 : lseg h3 (h.next b) R 0 := lseg_frame (fun x hx => by
      have h1 : x ≠ b := fun e => hbR (e ▸ hx)
      simp [h3, Function.update, h1]) hRt
    have hL3 : lseg h3 a (a :: L) 0 := lseg_frame (fun x hx => by
      have h1 : x ≠ b := fun e => hbL (e ▸ hx)
      simp [h3, Function.update, h1]) (show lseg h a (a :: L) 0 from ⟨rfl, ha, hLt⟩)
    obtain ⟨h4, l1, r1, c1, h5, hrun, hset, hseg, hfr, hs, hn⟩ :=
      merge_loop_spec n (a :: L) R h3 a (h.next b) b (by simp; omega) hL3 hR3 hb hbL hbR
        hnL (List.nodup_cons.mp hnR).2 (fun x hx hx' => hdisj hx (List.mem_cons_of_mem _ hx'))
    refine ⟨h5, b, ?_, ?_, ?_, hs, hn⟩
    · simp only [compare_tests_ok h ha hb, bind, Except.bind, hc, if_false, get_next_ok h hb,
        pure, Except.pure, set_next_ok h _ hb]
      simp only [h3] at hrun
      rw [hrun]
      simp only [hset]
    · rw [merge_lists_cons, if_neg hc]
      exact ⟨rfl, hb, hseg⟩
    · intro x hxL hxR
      have hxb : x ≠ b := fun e => hxR (e ▸ List.mem_cons_self _ _)
      rw [hfr x hxb hxL (fun e => hxR (List.mem_cons_of_mem _ e))]
      simp [h3, Function.update, hxb]

/-- Refinement: on a chain of `n` distinct nodes (whatever follows it), `sort_tests`
returns without fault, and the heap then holds the list-level sort of the chain,
`NULL`-terminated; only the `next` fields of these nodes are written. -/
theorem sort_tests_spec : ∀ (n : Nat) (l : List Ptr) (h : Heap) (head tail : Ptr),
    l.length = n → lseg h head l tail → l.Nodup →
    ∃ h' p, sort_tests h head n = .ok (h', p) ∧
      lseg h' p (sort_lists (compare_keys h) l) 0 ∧
      (∀ x, x ∉ l → h'.next x = h.next x) ∧ h'.suite = h.suite ∧ h'.name = h.name := by
  intro n
  induction n using Nat.strong_induction_on with
  | _ n ih =>
    intro l h head tail hlen hl hnd
    by_cases h0 : n = 0
    · subst h0
      have : l = [] := List.length_eq_zero.mp hlen
      subst this
      refine ⟨h, 0, by rw [sort_tests]; simp, ?_, fun _ _ => rfl, rfl, rfl⟩
      rw [sort_lists_small _ (by simp)]
      rfl
    by_cases h1 : n = 1
    · subst h1
      obtain ⟨a, rfl⟩ := List.length_eq_one.mp hlen
      obtain ⟨hp, ha, _⟩ := hl
      subst hp
      refine ⟨{ h with next := Function.update h.next head 0 }, head, ?_, ?_, ?_, rfl, rfl⟩
      · rw [sort_tests]
        simp [set_next_ok h _ ha, bind, Except.bind]
      · rw [sort_lists_small _ (by simp)]
        exact ⟨rfl, ha, by simp [lseg]⟩
      · intro x hx
        have : x ≠ head := by simpa using hx
        simp [Function.update, this]
    -- two or more nodes
    have hl2 : ¬ l.length < 2 := by omega
    have hsplit : l.take (n / 2) ++ l.drop (n / 2) = l := List.take_append_drop _ _
    have hlenL : (l.take (n / 2)).length = n / 2 := by simp; omega
    have hlenR : (l.drop (n / 2)).length = n - n / 2 := by simp; omega
    rw [← hsplit] at hl hnd
    obtain ⟨mid, hL, hR⟩ := lseg_append.mp hl
    have hndL : (l.take (n / 2)).Nodup := (List.nodup_append.mp hnd).1
    have hndR : (l.drop (n / 2)).Nodup := (List.nodup_append.mp hnd).2.1
    have hdisj : List.Disjoint (l.take (n / 2)) (l.drop (n / 2)) := (List.nodup_append.mp hnd).2.2
    have hskip : skip_nodes h (n / 2) head = .ok mid := by
      have := lseg_skip_nodes hL
      rwa [hlenL] at this
    -- the right half is sorted first
    obtain ⟨h1', pr, hrunR, hsegR, hfrR, hsR, hnR⟩ :=
      ih (n - n / 2) (by omega) (l.drop (n / 2)) h mid tail hlenR hR hndR
    have hL1 : lseg h1' head (l.take (n / 2)) mid :=
      lseg_frame (fun x hx => hfrR x (fun hx' => hdisj hx hx')) hL
    -- then the left half
    obtain ⟨h2', pl, hrunL, hsegL, hfrL, hsL, hnL⟩ :=
      ih (n / 2) (by omega) (l.take (n / 2)) h1' head mid hlenL hL1 hndL
    have hk1 : compare_keys h1' = compare_keys h := compare_keys_congr hsR hnR
    have hk2 : compare_keys h2' = compare_keys h := compare_keys_congr (hsL.trans hsR) (hnL.trans hnR)
    rw [hk1] at hsegL
    have hpL := sort_lists_perm (compare_keys h) _ (l.take (n / 2)) rfl
    have hpR := sort_lists_perm (compare_keys h) _ (l.drop (n / 2)) rfl
    have hsegR2 : lseg h2' pr (sort_lists (compare_keys h) (l.drop (n / 2))) 0 :=
      lseg_frame (fun x hx => hfrL x (fun hx' => hdisj hx' (hpR.mem_iff.mp hx))) hsegR
    -- both sorted halves are non-empty
    obtain ⟨a, SL, hSL⟩ : ∃ a SL, sort_lists (compare_keys h) (l.take (n / 2)) = a :: SL := by
      cases hc : sort_lists (compare_keys h) (l.take (n / 2)) with
      | nil =>
        have := hpL.length_eq
        rw [hc, hlenL] at this
        simp at this
        omega
      | cons a SL => exact ⟨a, SL, rfl⟩
    obtain ⟨b, SR, hSR⟩ : ∃ b SR, sort_lists (compare_keys h) (l.drop (n / 2)) = b :: SR := by
      cases hc : sort_lists (compare_keys h) (l.drop (n / 2)) with
      | nil =>
        have := hpR.length_eq
        rw [hc, hlenR] at this
        simp at this
        omega
      | cons b SR => exact ⟨b, SR, rfl⟩
    rw [hSL] at hsegL hpL
    rw [hSR] at hsegR2 hpR
    have hpl : pl = a := hsegL.1
    have hpr : pr = b := hsegR2.1
    subst hpl hpr
    have hlenSL : SL.length + 1 = n / 2 := by
      have := hpL.length_eq
      rw [hlenL] at this
      simpa using this
    have hlenSR : SR.length + 1 = n - n / 2 := by
      have := hpR.length_eq
      rw [hlenR] at this
      simpa using this
    obtain ⟨h', p, hrun, hseg, hfr, hs, hn⟩ :=
      merge_phase_spec n h2' pl pr SL SR (by omega) hsegL hsegR2
        (hpL.nodup_iff.mpr hndL) (hpR.nodup_iff.mpr hndR)
        (fun x hx hx' => hdisj (hpL.mem_iff.mp hx) (hpR.mem_iff.mp hx'))
    refine ⟨h', p, ?_, ?_, ?_, hs.trans (hsL.trans hsR), hn.trans (hnL.trans hnR)⟩
    · rw [sort_tests]
      simp only [dif_neg h0, dif_neg h1, hskip, hrunR, hrunL]
      exact hrun
    · rw [sort_lists_split _ hl2, hlen, hSL, hSR, ← hk2]
      exact hseg
    · intro x hx
      rw [← hsplit] at hx
      have hxL : x ∉ l.take (n / 2) := fun e => hx (List.mem_append_left _ e)
      have hxR : x ∉ l.drop (n / 2) := fun e => hx (List.mem_append_right _ e)
      rw [hfr x (fun e => hxL (hpL.mem_iff.mp e)) (fun e => hxR (hpR.mem_iff.mp e)),
        hfrL x hxL, hfrR x hxR]

/-- The sorted registry, from any well-formed list: the facts the claims below share. -/
theorem sort_registry_spec (fuel : Nat) (s : Registry) (l : List Ptr)
    (hl : is_list s.heap s.registered_tests_head l) (hfuel : l.length ≤ fuel) :
    ∃ s', sort_registry fuel s = .ok s' ∧
      lseg s'.heap s'.registered_tests_head (sort_lists (compare_keys s.heap) l) 0 ∧
      s'.heap.suite = s.heap.suite ∧ s'.heap.name = s.heap.name := by
  obtain ⟨h', p, hrun, hseg, _, hs, hn⟩ :=
    sort_tests_spec l.length l s.heap s.registered_tests_head 0 rfl hl.1 hl.2
  refine ⟨{ heap := h', registered_tests_head := p }, ?_, hseg, hs, hn⟩
  simp [sort_registry, count_tests_spec fuel hl.1 hfuel, hrun, bind, Except.bind]

/-- The registry after registering distinct non-`NULL` descriptors, starting from the
empty one, and its sorted form. -/
theorem registered_sorted_spec (fuel : Nat) (s0 : Registry) (ts : List Ptr)
    (hhead : s0.registered_tests_head = 0) (hnd : ts.Nodup) (hnz : ∀ t ∈ ts, t ≠ 0)
    (hfuel : ts.length ≤ fuel) :
    ∃ s s', register_all s0 ts = .ok s ∧ sort_registry fuel s = .ok s' ∧
      is_list s.heap s.registered_tests_head ts.reverse ∧
      is_list s'.heap s'.registered_tests_head (sort_lists (compare_keys s0.heap) ts.reverse) ∧
      s.heap.suite = s0.heap.suite ∧ s.heap.name = s0.heap.name ∧
      s'.heap.suite = s0.heap.suite ∧ s'.heap.name = s0.heap.name := by
  obtain ⟨s, hreg, hseg, hs, hn⟩ := register_all_spec ts s0 []
    (by rw [hhead]; rfl) hnd hnz (by simp)
  rw [List.append_nil] at hseg
  have hlist : is_list s.heap s.registered_tests_head ts.reverse := ⟨hseg, List.nodup_reverse.mpr hnd⟩
  obtain ⟨s', hsort, hseg', hs', hn'⟩ := sort_registry_spec fuel s ts.reverse hlist (by simpa using hfuel)
  have hk : compare_keys s.heap = compare_keys s0.heap := compare_keys_congr hs hn
  rw [hk] at hseg'
  have hperm := sort_lists_perm (compare_keys s0.heap) _ ts.reverse rfl
  exact ⟨s, s', hreg, hsort, hlist, ⟨hseg', hperm.nodup_iff.mpr hlist.2⟩, hs, hn,
    hs'.trans hs, hn'.trans hn⟩

/-! ## The comparison is a total preorder -/

theorem strcmp_swap : ∀ (s t : List Nat), strcmp t s = - strcmp s t
  | [], [] => by simp [strcmp]
  | [], b :: _ => by simp [strcmp]
  | a :: _, [] => by simp [strcmp]
  | a :: s, b :: t => by
    have ih := strcmp_swap s t
    by_cases hab : a = b
    · subst hab
      by_cases ha : a = 0
      · simp [strcmp, ha]
      · simp [strcmp, ha, ih]
    · have hba : ¬ b = a := fun e => hab e.symm
      simp [strcmp, hab, hba]

theorem strcmp_trans : ∀ (a b c : List Nat), strcmp a b ≤ 0 → strcmp b c ≤ 0 → strcmp a c ≤ 0
  | [], [], c => by intro _ h; exact h
  | [], _ :: _, [] => by intro _ _; simp [strcmp]
  | [], y :: b, z :: c => by
    intro _ h2
    by_cases hyz : y = z
    · subst hyz; simp [strcmp]
    · simp only [strcmp, hyz, if_false] at h2 ⊢
      omega
  | x :: a, [], [] => by intro h _; exact h
  | x :: a, [], z :: c => by
    intro h1 h2
    simp only [strcmp] at h1 h2
    have hx : x = 0 := by omega
    subst hx
    by_cases hz : 0 = z
    · subst hz; simp [strcmp]
    · simp only [strcmp, hz, if_false]; omega
  | x :: a, y :: b, [] => by
    intro h1 h2
    simp only [strcmp] at h2
    have hy : y = 0 := by omega
    subst hy
    by_cases hx : x = 0
    · subst hx; simp [strcmp]
    · simp only [strcmp, hx, if_false] at h1; omega
  | x :: a, y :: b, z :: c => by
    intro h1 h2
    have ih := strcmp_trans a b c
    by_cases hxy : x = y
    · subst hxy
      by_cases hxz : x = z
      · subst hxz
        by_cases hx : x = 0
        · simp [strcmp, hx]
        · simp only [strcmp, if_true, hx, if_false] at h1 h2 ⊢
          exact ih h1 h2
      · simp only [strcmp, hxz, if_false] at h2 ⊢
        exact h2
    · by_cases hyz : y = z
      · subst hyz
        simp only [strcmp, hxy, if_false] at h1 ⊢
        exact h1
      · simp only [strcmp, hxy, hyz, if_false] at h1 h2
        by_cases hxz : x = z
        · omega
        · simp only [strcmp, hxz, if_false]; omega

theorem strcmp_eq_zero_iff : ∀ (s t : List Nat), strcmp s t = 0 ↔ cstr s = cstr t
  | [], [] => by simp [strcmp]
  | [], b :: t => by
    by_cases hb : b = 0
    · simp [strcmp, cstr, hb]
    · simp [strcmp, cstr, hb, List.takeWhile_cons]
  | a :: s, [] => by
    by_cases ha : a = 0
    · simp [strcmp, cstr, ha]
    · simp [strcmp, cstr, ha, List.takeWhile_cons]
  | a :: s, b :: t => by
    have ih := strcmp_eq_zero_iff s t
    by_cases hab : a = b
    · subst hab
      by_cases ha : a = 0
      · simp [strcmp, cstr, ha]
      · simpa [strcmp, cstr, ha, List.takeWhile_cons] using ih
    · by_cases ha : a = 0
      · subst ha
        have hb : ¬ b = 0 := fun e => hab e.symm
        simp [strcmp, cstr, hab, hb, List.takeWhile_cons]
      · by_cases hb : b = 0
        · subst hb
          simp [strcmp, cstr, ha, List.takeWhile_cons]
        · simp only [strcmp, hab, if_false, cstr, List.takeWhile_cons, ne_eq, ha, hb,
            not_false_eq_true, decide_True, if_true, List.cons.injEq, false_and, iff_false]
          omega

theorem strcmp_neg_iff : ∀ (s t : List Nat),
    strcmp s t < 0 ↔ List.Lex (fun x y : Nat => x < y) (cstr s) (cstr t)
  | [], [] => by simp [strcmp, cstr]
  | [], b :: t => by
    by_cases hb : b = 0
    · simp [strcmp, cstr, hb]
    · have : 0 < b := Nat.pos_of_ne_zero hb
      simp [strcmp, cstr, hb, List.takeWhile_cons, this, List.Lex.nil]
  | a :: s, [] => by
    by_cases ha : a = 0
    · simp [strcmp, cstr, ha]
    · have : ¬ (a : Int) < 0 := by omega
      simp [strcmp, cstr, ha, List.takeWhile_cons, this]
  | a :: s, b :: t => by
    have ih := strcmp_neg_iff s t
    by_cases ha : a = 0
    · subst ha
      by_cases hb : b = 0
      · subst hb
        simp [strcmp, cstr]
      · have hb' : ¬ 0 = b := fun e => hb e.symm
        have : 0 < b := Nat.pos_of_ne_zero hb
        simp [strcmp, cstr, hb, hb', List.takeWhile_cons, this, List.Lex.nil]
    · by_cases hb : b = 0
      · subst hb
        have : ¬ (a : Int) < 0 := by omega
        simp [strcmp, cstr, ha, List.takeWhile_cons, this]
      · by_cases hab : a = b
        · subst hab
          simp only [strcmp, if_true, ha, if_false, cstr, List.takeWhile_cons, ne_eq,
            not_false_eq_true, decide_True]
          rw [List.Lex.cons_iff]
          exact ih
        · simp only [strcmp, hab, if_false, cstr, List.takeWhile_cons, ne_eq, ha, hb,
            not_false_eq_true, decide_True, if_true]
          constructor
          · intro h
            exact List.Lex.rel (by omega)
          · intro h
            cases h with
            | cons h => exact absurd rfl hab
            | rel h => omega

theorem compare_keys_isOrdering (h : Heap) : IsOrdering (compare_keys h) := by
  constructor
  · intro a b
    have hs := strcmp_swap (h.suite a) (h.suite b)
    have hn := strcmp_swap (h.name a) (h.name b)
    simp only [compare_keys, hs, hn]
    by_cases h0 : strcmp (h.suite a) (h.suite b) = 0
    · simp [h0]
    · simp [h0]
  · intro a b c h1 h2
    have sab := strcmp_swap (h.suite a) (h.suite b)
    have sbc := strcmp_swap (h.suite b) (h.suite c)
    have sac := strcmp_swap (h.suite a) (h.suite c)
    have t1 := strcmp_trans (h.suite a) (h.suite b) (h.suite c)
    have t2 := strcmp_trans (h.suite b) (h.suite c) (h.suite a)
    have t3 := strcmp_trans (h.suite c) (h.suite a) (h.suite b)
    have t4 := strcmp_trans (h.suite c) (h.suite b) (h.suite a)
    have tn := strcmp_trans (h.name a) (h.name b) (h.name c)
    simp only [compare_keys] at h1 h2 ⊢
    by_cases e1 : strcmp (h.suite a) (h.suite b) = 0
    · by_cases e2 : strcmp (h.suite b) (h.suite c) = 0
      · have e3 : strcmp (h.suite a) (h.suite c) = 0 := by
          have := t1 (by omega) (by omega)
          have := t4 (by omega) (by omega)
          omega
        simp only [e1, e2, e3, ne_eq, not_true_eq_false, if_false] at h1 h2 ⊢
        exact tn h1 h2
      · simp only [e1, e2, ne_eq, not_true_eq_false, if_false, not_false_eq_true, if_true] at h1 h2
        have := t1 (by omega) h2
        have e3 : strcmp (h.suite a) (h.suite c) ≠ 0 := by
          intro e
          have := t3 (by omega) (by omega)
          omega
        simp only [ne_eq, e3, not_false_eq_true, if_true]
        exact this
    · simp only [ne_eq, e1, not_false_eq_true, if_true] at h1
      have hbc : strcmp (h.suite b) (h.suite c) ≤ 0 := by
        by_cases e2 : strcmp (h.suite b) (h.suite c) = 0
        · omega
        · simpa [e2] using h2
      have := t1 h1 hbc
      have e3 : strcmp (h.suite a) (h.suite c) ≠ 0 := by
        intro e
        have := t2 hbc (by omega)
        omega
      simp only [ne_eq, e3, not_false_eq_true, if_true]
      exact this

theorem IsOrdering.refl {cmp : Ptr → Ptr → Int} (ho : IsOrdering cmp) (a : Ptr) : cmp a a = 0 := by
  have := ho.1 a a
  omega

/-- Strictly below, then not above, gives strictly below. -/
theorem IsOrdering.lt_of_lt_of_le {cmp : Ptr → Ptr → Int} (ho : IsOrdering cmp) {a b c : Ptr}
    (h1 : cmp a b < 0) (h2 : cmp b c ≤ 0) : cmp a c < 0 := by
  by_contra hn
  have h3 : cmp c a ≤ 0 := by
    have := ho.1 a c
    omega
  have h4 := ho.2 b c a h2 h3
  have := ho.1 a b
  omega

/-! ## Order and stability of the list-level sort -/

theorem merge_lists_sorted {cmp : Ptr → Ptr → Int} (ho : IsOrdering cmp) : ∀ (n : Nat) (l r : List Ptr),
    l.length + r.length = n → l.Pairwise (fun a b => cmp a b ≤ 0) →
    r.Pairwise (fun a b => cmp a b ≤ 0) →
    (merge_lists cmp l r).Pairwise (fun a b => cmp a b ≤ 0) := by
  intro n
  induction n with
  | zero =>
    intro l r hlen hl _
    have hr : r = [] := List.length_eq_zero.mp (by omega)
    subst hr
    rw [merge_lists_nil_right]
    exact hl
  | succ n ih =>
    intro l r hlen hl hr
    cases l with
    | nil => rw [merge_lists_nil_left]; exact hr
    | cons a l =>
      cases r with
      | nil => rw [merge_lists_nil_right]; exact hl
      | cons b r =>
        rw [merge_lists_cons]
        obtain ⟨hal, hl'⟩ := List.pairwise_cons.mp hl
        obtain ⟨hbr, hr'⟩ := List.pairwise_cons.mp hr
        split
        · rename_i hc
          refine List.pairwise_cons.mpr ⟨?_, ih l (b :: r) (by simp at hlen ⊢; omega) hl' hr⟩
          intro x hx
          rcases List.mem_append.mp ((merge_lists_perm cmp _ _ _ rfl).mem_iff.mp hx) with hx | hx
          · exact hal x hx
          · rcases List.mem_cons.mp hx with rfl | hx
            · omega
            · exact ho.2 a b x (by omega) (hbr x hx)
        · rename_i hc
          have hba : cmp b a ≤ 0 := by
            have := ho.1 a b
            omega
          refine List.pairwise_cons.mpr ⟨?_, ih (a :: l) r (by simp at hlen ⊢; omega) hl hr'⟩
          intro x hx
          rcases List.mem_append.mp ((merge_lists_perm cmp _ _ _ rfl).mem_iff.mp hx) with hx | hx
          · rcases List.mem_cons.mp hx with rfl | hx
            · exact hba
            · exact ho.2 b a x hba (hal x hx)
          · exact hbr x hx

theorem sort_lists_sorted {cmp : Ptr → Ptr → Int} (ho : IsOrdering cmp) : ∀ (n : Nat) (l : List Ptr),
    l.length = n → (sort_lists cmp l).Pairwise (fun a b => cmp a b ≤ 0) := by
  intro n
  induction n using Nat.strong_induction_on with
  | _ n ih =>
    intro l hlen
    by_cases hl : l.length < 2
    · rw [sort_lists_small cmp hl]
      match l, hl with
      | [], _ => exact List.Pairwise.nil
      | [a], _ => exact List.pairwise_singleton _ a
    · rw [sort_lists_split cmp hl]
      exact merge_lists_sorted ho _ _ _ rfl
        (ih (l.take (l.length / 2)).length (by simp; omega) _ rfl)
        (ih (l.drop (l.length / 2)).length (by simp; omega) _ rfl)

/-- Among nodes that compare equal to `k`, a merge puts those of the right list first. -/
theorem merge_lists_filter {cmp : Ptr → Ptr → Int} (ho : IsOrdering cmp) (k : Ptr) :
    ∀ (n : Nat) (l r : List Ptr), l.length + r.length = n →
    r.Pairwise (fun a b => cmp a b ≤ 0) →
    (merge_lists cmp l r).filter (fun x => decide (cmp k x = 0)) =
      r.filter (fun x => decide (cmp k x = 0)) ++ l.filter (fun x => decide (cmp k x = 0)) := by
  intro n
  induction n with
  | zero =>
    intro l r hlen _
    have hl : l = [] := List.length_eq_zero.mp (by omega)
    subst hl
    simp [merge_lists_nil_left]
  | succ n ih =>
    intro l r hlen hr
    cases l with
    | nil => simp [merge_lists_nil_left]
    | cons a l =>
      cases r with
      | nil => simp [merge_lists_nil_right]
      | cons b r =>
        rw [merge_lists_cons]
        obtain ⟨hbr, hr'⟩ := List.pairwise_cons.mp hr
        split
        · rename_i hc
          rw [List.filter_cons, ih l (b :: r) (by simp at hlen ⊢; omega) hr]
          by_cases hka : cmp k a = 0
          · have hnone : (b :: r).filter (fun x => decide (cmp k x = 0)) = [] := by
              rw [List.filter_eq_nil_iff]
              intro x hx
              have hbx : cmp b x ≤ 0 := by
                rcases List.mem_cons.mp hx with rfl | hx
                · exact le_of_eq (ho.refl _)
                · exact hbr x hx
              have hax := ho.lt_of_lt_of_le hc hbx
              have hkx : cmp k x ≤ 0 := ho.2 k a x (by omega) (by omega)
              have hxk : ¬ cmp x k ≤ 0 := by
                intro hxk
                have := ho.2 x k a hxk (by omega)
                have := ho.1 a x
                omega
              have := ho.1 k x
              simp only [decide_eq_true_eq]
              omega
            simp [hnone, hka]
          · simp [hka]
        · rw [List.filter_cons, ih (a :: l) r (by simp at hlen ⊢; omega) hr', List.filter_cons]
          by_cases hkb : cmp k b = 0
          · simp [hkb]
          · simp [hkb]

/-- The list-level sort reverses the order of nodes that compare equal. -/
theorem sort_lists_filter {cmp : Ptr → Ptr → Int} (ho : IsOrdering cmp) (k : Ptr) :
    ∀ (n : Nat) (l : List Ptr), l.length = n →
    (sort_lists cmp l).filter (fun x => decide (cmp k x = 0)) =
      (l.filter (fun x => decide (cmp k x = 0))).reverse := by
  intro n
  induction n using Nat.strong_induction_on with
  | _ n ih =>
    intro l hlen
    by_cases hl : l.length < 2
    · rw [sort_lists_small cmp hl]
      match l, hl with
      | [], _ => simp
      | [a], _ =>
        by_cases hka : cmp k a = 0
        · simp [hka]
        · simp [hka]
    · rw [sort_lists_split cmp hl]
      rw [merge_lists_filter ho k _ _ _ rfl (sort_lists_sorted ho _ _ rfl),
        ih (l.take (l.length / 2)).length (by simp; omega) _ rfl,
        ih (l.drop (l.length / 2)).length (by simp; omega) _ rfl,
        ← List.reverse_append, ← List.filter_append, List.take_append_drop]

/-- Two nodes that compare equal leave the sort in the order opposite to the one
they entered it in. -/
theorem sort_lists_pair {cmp : Ptr → Ptr → Int} (ho : IsOrdering cmp) (l : List Ptr) (a b : Ptr)
    (hab : cmp a b = 0) (hsub : List.Sublist [a, b] l.reverse) :
    List.Sublist [a, b] (sort_lists cmp l) := by
  have h1 := hsub.filter (fun x => decide (cmp a x = 0))
  have h2 : [a, b].filter (fun x => decide (cmp a x = 0)) = [a, b] := by
    simp [List.filter_cons, ho.refl a, hab]
  rw [h2, List.filter_reverse, ← sort_lists_filter ho a _ l rfl] at h1
  exact h1.trans (List.filter_sublist _)

/-! ## Draining the pipe -/

/-- One round of the read loop keeps the bytes gathered so far and appends the new ones. -/
theorem memmove_xrealloc (fill : Nat) (log : Option (List Nat)) (n : Nat) (c : List Nat)
    (hlen : n ≤ (log.getD []).length) :
    (memmove (xrealloc fill log (n + c.length + 1)) n c).length = n + c.length + 1 ∧
    (memmove (xrealloc fill log (n + c.length + 1)) n c).take (n + c.length) =
      (log.getD []).take n ++ c := by
  have h1 : (xrealloc fill log (n + c.length + 1)).length = n + c.length + 1 := by
    simp [xrealloc]
  have h2 : (xrealloc fill log (n + c.length + 1)).take n = (log.getD []).take n := by
    simp only [xrealloc, List.take_take]
    rw [Nat.min_eq_left (by omega), List.take_append_of_le_length hlen]
  constructor
  · simp only [memmove, List.length_append, List.length_take, List.length_drop, h1]
    omega
  · have hl : ((xrealloc fill log (n + c.length + 1)).take n ++ c).length = n + c.length := by
      simp only [List.length_append, List.length_take, h1]
      omega
    simp only [memmove]
    rw [List.take_append_of_le_length (by omega), List.take_of_length_le (by omega), h2]

theorem read_loop_spec (fill : Nat) : ∀ (chunks : List (List Nat)) (log : Option (List Nat)) (n : Nat),
    (∀ c ∈ chunks, c ≠ []) →
    (log = none ∧ n = 0 ∨ ∃ buf, log = some buf ∧ buf.length = n + 1) →
    ∃ log', read_loop fill (chunks.map ReadResult.data) log n = .ok (log', n + chunks.flatten.length) ∧
      (log'.getD []).take (n + chunks.flatten.length) = (log.getD []).take n ++ chunks.flatten ∧
      (log' = none ∧ n + chunks.flatten.length = 0 ∨
        ∃ buf, log' = some buf ∧ buf.length = n + chunks.flatten.length + 1) ∧
      (chunks = [] → log' = log)
  | [], log, n, _, hinv => by
    refine ⟨log, by simp [read_loop], by simp, ?_, fun _ => rfl⟩
    simpa using hinv
  | c :: chunks, log, n, hne, hinv => by
    have hc : c ≠ [] := hne c (List.mem_cons_self _ _)
    have hcl : 0 < c.length := List.length_pos.mpr hc
    have hlen : n ≤ (log.getD []).length := by
      rcases hinv with ⟨_, h0⟩ | ⟨buf, hb, hbl⟩
      · omega
      · simp [hb, hbl]
    obtain ⟨hm1, hm2⟩ := memmove_xrealloc fill log n c hlen
    obtain ⟨log', hrun, htake, hinv', _⟩ := read_loop_spec fill chunks
      (some (memmove (xrealloc fill log (n + c.length + 1)) n c)) (n + c.length)
      (fun x hx => hne x (List.mem_cons_of_mem _ hx)) (Or.inr ⟨_, rfl, hm1⟩)
    refine ⟨log', ?_, ?_, ?_, fun e => by simp at e⟩
    · simp only [List.map_cons, read_loop, gt_iff_lt, hcl, if_true, List.flatten_cons,
        List.length_append]
      rw [hrun]
      simp [Nat.add_assoc]
    · simp only [List.flatten_cons, List.length_append, ← Nat.add_assoc]
      rw [htake]
      simp only [Option.getD_some, hm2, List.append_assoc]
    · simpa [Nat.add_assoc] using hinv'

/-- `readall_from_pipe` on a stream of non-empty reads: `NULL` when nothing was read,
otherwise the concatenation of the chunks followed by the terminating zero. -/
theorem readall_from_pipe_spec (fill : Nat) (chunks : List (List Nat))
    (hne : ∀ c ∈ chunks, c ≠ []) :
    readall_from_pipe fill (chunks.map ReadResult.data) =
      .ok (if chunks.flatten = [] then none else some (chunks.flatten ++ [0])) := by
  obtain ⟨log', hrun, htake, hinv, hnil⟩ :=
    read_loop_spec fill chunks none 0 hne (Or.inl ⟨rfl, rfl⟩)
  simp only [Nat.zero_add, Option.getD_none, List.take_nil, List.nil_append] at hrun htake hinv
  simp only [readall_from_pipe, hrun, bind, Except.bind]
  rcases hinv with ⟨hnone, hz⟩ | ⟨buf, hb, hbl⟩
  · subst hnone
    have : chunks.flatten = [] := List.length_eq_zero.mp hz
    simp [this]
  · subst hb
    simp only [Option.getD_some] at htake
    have hj : chunks.flatten ≠ [] := by
      intro hj
      cases chunks with
      | nil => exact absurd (hnil rfl) (by simp)
      | cons c cs =>
        have hc := hne c (List.mem_cons_self _ _)
        simp only [List.flatten_cons, List.append_eq_nil] at hj
        exact hc hj.1
    have hset : buf.set chunks.flatten.length 0 = chunks.flatten ++ [0] := by
      apply List.ext_getElem
      · simp [hbl]
      · intro i h1 h2
        simp only [List.length_set] at h1
        by_cases hi : i = chunks.flatten.length
        · subst hi
          simp
        · have hlt : i < chunks.flatten.length := by omega
          rw [List.getElem_set_ne (fun e => hi e.symm), List.getElem_append_left hlt]
          have := congrArg (fun l => l[i]?) htake
          simp only [List.getElem?_take, hlt, if_true] at this
          rw [List.getElem?_eq_getElem h1, List.getElem?_eq_getElem hlt] at this
          exact Option.some.inj this
    simp only [hset, hj, if_false]

theorem cstr_append_zero (l : List Nat) : cstr (l ++ [0]) = cstr l := by
  induction l with
  | nil => simp [cstr]
  | cons a l ih =>
    by_cases ha : a = 0
    · simp [cstr, ha]
    · simp only [cstr, List.cons_append, List.takeWhile_cons, ne_eq, ha, not_false_eq_true,
        decide_True, if_true, List.cons.injEq, true_and]
      exact ih

theorem cstr_of_no_zero (l : List Nat) (h : 0 ∉ l) : cstr l = l := by
  rw [cstr, List.takeWhile_eq_self_iff]
  intro x hx
  have : x ≠ 0 := fun e => h (e ▸ hx)
  simpa using this

/-! ## Decoding the child's end -/

theorem wait_for_child_exited (result : test_result) (err : Int) (wait_status : Nat)
    (herr : 0 ≤ err) (hex : WIFEXITED wait_status = true) :
    wait_for_child result err wait_status =
      .ok { result with
        status := { result.status with
          exit_code := (WEXITSTATUS wait_status : Int),
          failed := if WEXITSTATUS wait_status ≠ 0 then 1 else 0 } } := by
  have h1 : ¬ err < 0 := by omega
  simp [wait_for_child, h1, hex]

theorem wait_for_child_signaled (result : test_result) (err : Int) (wait_status : Nat)
    (herr : 0 ≤ err) (hex : WIFEXITED wait_status = false) (hsig : WIFSIGNALED wait_status = true) :
    wait_for_child result err wait_status =
      .ok { result with
        status := { result.status with signal := (WTERMSIG wait_status : Int), failed := 1 } } := by
  have h1 : ¬ err < 0 := by omega
  simp [wait_for_child, h1, hex, hsig]

theorem wait_for_child_other (result : test_result) (err : Int) (wait_status : Nat)
    (hex : WIFEXITED wait_status = false) (hsig : WIFSIGNALED wait_status = false) :
    wait_for_child result err wait_status = .error .died := by
  simp [wait_for_child, hex, hsig]

theorem wait_status_exited (c : Nat) (hc : c < 256) :
    WIFEXITED (wait_status_of (.exited c)) = true ∧
    WEXITSTATUS (wait_status_of (.exited c)) = c := by
  have h1 : ((c : Int) % 256).toNat = c := by omega
  simp only [wait_status_of, h1, WIFEXITED, WEXITSTATUS]
  constructor
  · simp only [beq_iff_eq]
    omega
  · omega

theorem wait_status_killed (s : Nat) (h1 : 1 ≤ s) (h2 : s ≤ 126) :
    WIFEXITED (wait_status_of (.killed s)) = false ∧
    WIFSIGNALED (wait_status_of (.killed s)) = true ∧
    WTERMSIG (wait_status_of (.killed s)) = s := by
  simp only [wait_status_of, WIFEXITED, WIFSIGNALED, WTERMSIG, Bool.and_eq_true,
    decide_eq_true_eq, beq_eq_false_iff_ne, ne_eq]
  omega

theorem wait_for_child_fields {r r' : test_result} {err : Int} {st : Nat}
    (h : wait_for_child r err st = .ok r') : r'.test = r.test ∧ r'.log = r.log ∧ r'.next = r.next := by
  unfold wait_for_child at h
  split at h
  · cases h
  · split at h
    · cases h
      exact ⟨rfl, rfl, rfl⟩
    · split at h
      · cases h
        exact ⟨rfl, rfl, rfl⟩
      · cases h

theorem run_test_record_fields {env : Env} {test : Ptr} {r : test_result}
    (h : run_test_record env test = .ok r) : r.test = test ∧ r.next = 0 := by
  unfold run_test_record at h
  cases hlog : readall_from_pipe env.fill (env.child test).reads with
  | error e => simp [hlog, bind, Except.bind] at h
  | ok log =>
    simp only [hlog, bind, Except.bind] at h
    obtain ⟨h1, _, h3⟩ := wait_for_child_fields h
    exact ⟨h1, h3⟩

theorem run_test_record_wait {env : Env} {t : Ptr} {r : test_result}
    (h : run_test_record env t = .ok r) :
    ∃ log, readall_from_pipe env.fill (env.child t).reads = .ok log ∧
      wait_for_child { fresh_result t with log := log } (env.child t).waitpid_ret
        (env.child t).wait_status = .ok r ∧
      0 ≤ (env.child t).waitpid_ret := by
  unfold run_test_record at h
  cases hlog : readall_from_pipe env.fill (env.child t).reads with
  | error e => simp [hlog, bind, Except.bind] at h
  | ok log =>
    simp only [hlog, bind, Except.bind] at h
    refine ⟨log, rfl, h, ?_⟩
    by_contra hneg
    have hlt : (env.child t).waitpid_ret < 0 := by omega
    simp [wait_for_child, hlt] at h

/-- The record of a descriptor whose child exited with the code `c`. -/
theorem run_test_record_exited {env : Env} {t : Ptr} {r : test_result} (c : Nat) (hc : c < 256)
    (h : run_test_record env t = .ok r)
    (hst : (env.child t).wait_status = wait_status_of (.exited c)) :
    r.status = { failed := if c ≠ 0 then 1 else 0, exit_code := c, signal := 0 } := by
  obtain ⟨log, _, hw, herr⟩ := run_test_record_wait h
  have henc := wait_status_exited c hc
  rw [← hst] at henc
  rw [wait_for_child_exited _ _ _ herr henc.1] at hw
  cases hw
  simp [henc.2, fresh_result]

theorem rseg_frame {rh rh' : ResultHeap} : ∀ {l : List Ptr} {p q : Ptr},
    (∀ x ∈ l, (rh'.cell x).next = (rh.cell x).next) → rseg rh p l q → rseg rh' p l q
  | [], _, _, _, hl => hl
  | a :: l, _, _, hf, hl => by
    obtain ⟨hp, ha, hr⟩ := hl
    refine ⟨hp, ha, ?_⟩
    rw [hf a (List.mem_cons_self a l)]
    exact rseg_frame (fun x hx => hf x (List.mem_cons_of_mem a hx)) hr

theorem rseg_ne_zero {rh : ResultHeap} : ∀ {l : List Ptr} {p q : Ptr},
    rseg rh p l q → ∀ x ∈ l, x ≠ 0
  | [], _, _, _, x, hx => by simp at hx
  | a :: l, _, _, hl, x, hx => by
    obtain ⟨_, ha, hr⟩ := hl
    rcases List.mem_cons.mp hx with rfl | hx
    · exact ha
    · exact rseg_ne_zero hr x hx

theorem rseg_append {rh : ResultHeap} : ∀ {l1 l2 : List Ptr} {p q : Ptr},
    rseg rh p (l1 ++ l2) q ↔ ∃ m, rseg rh p l1 m ∧ rseg rh m l2 q
  | [], l2, p, q => by simp [rseg]
  | a :: l1, l2, p, q => by
    simp only [List.cons_append, rseg]
    constructor
    · rintro ⟨hp, ha, hr⟩
      obtain ⟨m, h1, h2⟩ := rseg_append.mp hr
      exact ⟨m, ⟨hp, ha, h1⟩, h2⟩
    · rintro ⟨m, ⟨hp, ha, h1⟩, h2⟩
      exact ⟨hp, ha, rseg_append.mpr ⟨m, h1, h2⟩⟩

theorem rseg_null {rh : ResultHeap} {l : List Ptr} (hl : rseg rh 0 l 0) : l = [] := by
  cases l with
  | nil => rfl
  | cons a l =>
    obtain ⟨hp, ha, _⟩ := hl
    exact absurd hp.symm ha

/-- Linking a new record behind the last one (lines 328-329) extends the chain by it. -/
theorem rseg_snoc {rh : ResultHeap} {head tail result : Ptr} {init : List Ptr}
    (hl : rseg rh head (init ++ [tail]) 0) (hnd : (init ++ [tail]).Nodup)
    (hres : result ≠ 0) (hnew : result ∉ init ++ [tail]) (hnext : (rh.cell result).next = 0) :
    rseg { rh with cell := Function.update rh.cell tail { rh.cell tail with next := result } }
      head (init ++ [tail] ++ [result]) 0 := by
  obtain ⟨m, h1, h2⟩ := rseg_append.mp hl
  obtain ⟨hm, ht, _⟩ := h2
  subst hm
  have htinit : m ∉ init := by
    intro hmem
    have := List.nodup_append.mp hnd
    exact this.2.2 hmem (List.mem_singleton_self m)
  have hrt : result ≠ m := by
    intro e
    exact hnew (by simp [e])
  rw [List.append_assoc]
  refine rseg_append.mpr ⟨m, ?_, ?_⟩
  · refine rseg_frame (fun x hx => ?_) h1
    have : x ≠ m := fun e => htinit (e ▸ hx)
    simp [Function.update, this]
  · refine ⟨rfl, ht, ?_⟩
    simp only [Function.update_same]
    refine ⟨rfl, hres, ?_⟩
    simp only [Function.update, hrt, dite_false]
    rw [hnext]
    rfl

theorem same_data_refl (r : test_result) : same_data r r := ⟨rfl, rfl, rfl⟩

theorem same_data_trans {a b c : test_result} (h1 : same_data a b) (h2 : same_data b c) :
    same_data a c :=
  ⟨h1.1.trans h2.1, h1.2.1.trans h2.2.1, h1.2.2.trans h2.2.2⟩

/-- The loop of `run_all_tests`, started with the failing records `recs` already linked:
it returns, the records of the failing descriptors are linked behind them in the order the
descriptors are run, and no record already linked changes but in `next`. -/
theorem run_all_loop_spec (env : Env) (h : Heap)
    (hfresh : ∀ live, env.xmalloc live ≠ 0 ∧ env.xmalloc live ∉ live) :
    ∀ (l : List Ptr) (fuel : Nat) (rh : ResultHeap) (cur head tail : Ptr) (recs : List Ptr)
      (out : List Nat),
    lseg h cur l 0 → l.length ≤ fuel →
    (∀ t ∈ l, ∃ r, run_test_record env t = .ok r) →
    rseg rh head recs 0 → recs.Nodup → (∀ p ∈ recs, p ∈ rh.live) →
    (recs = [] ∨ ∃ init, recs = init ++ [tail]) →
    ∃ rh' head' new,
      run_all_loop env h fuel rh cur head tail out =
        .ok (rh', head', out ++ l.map (fun t => if test_failed env t then 70 else 46)) ∧
      rseg rh' head' (recs ++ new) 0 ∧
      new.map (fun p => (rh'.cell p).test) = l.filter (test_failed env) ∧
      (∀ p ∈ new, ∃ r, run_test_record env (rh'.cell p).test = .ok r ∧ same_data (rh'.cell p) r) ∧
      (∀ p ∈ recs, same_data (rh'.cell p) (rh.cell p))
  | [], fuel, rh, cur, head, tail, recs, out, hl, _, _, hrecs, _, _, _ => by
    have hcur : cur = 0 := hl
    subst hcur
    refine ⟨rh, head, [], ?_, by simpa using hrecs, by simp, by simp,
      fun p _ => same_data_refl _⟩
    cases fuel <;> simp [run_all_loop]
  | t :: l, fuel, rh, cur, head, tail, recs, out, hl, hfuel, hruns, hrecs, hnd, hlive, htail => by
    obtain ⟨hcur, ht, hl'⟩ := hl
    subst hcur
    obtain ⟨f, rfl⟩ : ∃ f, fuel = f + 1 := ⟨fuel - 1, by simp at hfuel; omega⟩
    obtain ⟨r, hr⟩ := hruns cur (List.mem_cons_self _ _)
    obtain ⟨hrtest, hrnext⟩ := run_test_record_fields hr
    have hruns' : ∀ t ∈ l, ∃ r, run_test_record env t = .ok r :=
      fun x hx => hruns x (List.mem_cons_of_mem _ hx)
    obtain ⟨hres0, hresl⟩ := hfresh rh.live
    have hresrecs : env.xmalloc rh.live ∉ recs := fun e => hresl (hlive _ e)
    have htf : test_failed env cur = decide (r.status.failed ≠ 0) := by
      simp [test_failed, hr]
    -- the heap after `run_test`
    let rh1 : ResultHeap :=
      { cell := Function.update rh.cell (env.xmalloc rh.live) r,
        live := env.xmalloc rh.live :: rh.live }
    have hrun1 : run_test env rh cur = .ok (rh1, env.xmalloc rh.live) := by
      simp [run_test, hres0, hr, bind, Except.bind, rh1]
    have hcell1 : rh1.cell (env.xmalloc rh.live) = r := by simp [rh1]
    have hold1 : ∀ p ∈ recs, rh1.cell p = rh.cell p := by
      intro p hp
      have : p ≠ env.xmalloc rh.live := fun e => hresrecs (e ▸ hp)
      simp [rh1, Function.update, this]
    have hrecs1 : rseg rh1 head recs 0 :=
      rseg_frame (fun x hx => by rw [hold1 x hx]) hrecs
    by_cases hfail : r.status.failed = 0
    · -- a passing record is freed
      obtain ⟨rh', head', new, hrun, hseg, hmap, hnew, hold⟩ :=
        run_all_loop_spec env h hfresh l f (free_test_result rh1 (env.xmalloc rh.live))
          (h.next cur) head tail recs (out ++ [46]) hl' (by simp at hfuel; omega) hruns'
          (@rseg_frame rh1 (free_test_result rh1 (env.xmalloc rh.live)) _ _ _ (fun x _ => rfl) hrecs1) hnd
          (fun p hp => by simpa [free_test_result, rh1] using hlive p hp) htail
      refine ⟨rh', head', new, ?_, hseg, ?_, hnew, ?_⟩
      · simp only [run_all_loop, ne_eq, ht, not_false_eq_true, if_true, hrun1, bind, Except.bind,
          hcell1, hfail, not_true_eq_false, if_false, Function.update_same]
        rw [hrun]
        simp [htf, hfail]
      · rw [hmap]
        simp [List.filter_cons, htf, hfail]
      · intro p hp
        have hsd : same_data (rh'.cell p) (rh1.cell p) := hold p hp
        rw [hold1 p hp] at hsd
        exact hsd
    · by_cases hhead : head = 0
      · -- the first failing record
        subst hhead
        have hnil : recs = [] := rseg_null hrecs
        subst hnil
        obtain ⟨rh', head', new, hrun, hseg, hmap, hnew, hold⟩ :=
          run_all_loop_spec env h hfresh l f rh1 (h.next cur) (env.xmalloc rh.live)
            (env.xmalloc rh.live) [env.xmalloc rh.live] (out ++ [70]) hl'
            (by simp at hfuel; omega) hruns'
            ⟨rfl, hres0, by rw [hcell1, hrnext]; rfl⟩ (List.nodup_singleton _)
            (fun p hp => by
              have : p = env.xmalloc rh.live := by simpa using hp
              simp [rh1, this])
            (Or.inr ⟨[], rfl⟩)
        have hsd := hold _ (List.mem_singleton_self _)
        rw [hcell1] at hsd
        refine ⟨rh', head', env.xmalloc rh.live :: new, ?_, by simpa using hseg, ?_, ?_,
          by simp⟩
        · simp only [run_all_loop, ne_eq, ht, not_false_eq_true, if_true, hrun1, bind,
            Except.bind, hcell1, hfail, if_false, Function.update_same]
          rw [hrun]
          simp [htf, hfail]
        · simp only [List.map_cons, hmap, hsd.1, hrtest]
          simp [List.filter_cons, htf, hfail]
        · intro p hp
          rcases List.mem_cons.mp hp with rfl | hp
          · exact ⟨r, by rw [hsd.1, hrtest]; exact hr, hsd⟩
          · exact hnew p hp
      · -- a further failing record is linked behind the last one
        obtain ⟨init, hinit⟩ : ∃ init, recs = init ++ [tail] := by
          rcases htail with hnil | hinit
          · subst hnil
            exact absurd hrecs hhead
          · exact hinit
        subst hinit
        have htl0 : tail ≠ 0 := rseg_ne_zero hrecs tail (by simp)
        have hrt : env.xmalloc rh.live ≠ tail := fun e => hresrecs (by simp [e])
        let rh2 : ResultHeap :=
          { rh1 with cell := Function.update rh1.cell tail { rh1.cell tail with next := env.xmalloc rh.live } }
        have hset : set_result_next rh1 tail (env.xmalloc rh.live) = .ok rh2 := by
          simp [set_result_next, htl0, rh2]
        have hseg2 : rseg rh2 head (init ++ [tail] ++ [env.xmalloc rh.live]) 0 :=
          rseg_snoc hrecs1 hnd hres0 hresrecs (by rw [hcell1, hrnext])
        have hcell2 : rh2.cell (env.xmalloc rh.live) = r := by
          simp [rh2, Function.update, hrt, rh1]
        have hold2 : ∀ p ∈ init ++ [tail], same_data (rh2.cell p) (rh.cell p) := by
          intro p hp
          have hpr : p ≠ env.xmalloc rh.live := fun e => hresrecs (e ▸ hp)
          by_cases hpt : p = tail
          · subst hpt
            simp [same_data, rh2, rh1, Function.update, hpr]
          · simp [same_data, rh2, rh1, Function.update, hpr, hpt]
        obtain ⟨rh', head', new, hrun, hseg, hmap, hnew, hold⟩ :=
          run_all_loop_spec env h hfresh l f rh2 (h.next cur) head (env.xmalloc rh.live)
            (init ++ [tail] ++ [env.xmalloc rh.live]) (out ++ [70]) hl'
            (by simp at hfuel; omega) hruns' hseg2
            (by
              rw [List.nodup_append]
              refine ⟨hnd, List.nodup_singleton _, ?_⟩
              intro x hx hx'
              have : x = env.xmalloc rh.live := by simpa using hx'
              exact hresrecs (this ▸ hx))
            (fun p hp => by
              rcases List.mem_append.mp hp with hp | hp
              · simp only [rh2, rh1, List.mem_cons]
                exact Or.inr (hlive p hp)
              · have : p = env.xmalloc rh.live := by simpa using hp
                simp [rh2, rh1, this])
            (Or.inr ⟨init ++ [tail], rfl⟩)
        have hsd := hold (env.xmalloc rh.live) (by simp)
        rw [hcell2] at hsd
        refine ⟨rh', head', env.xmalloc rh.live :: new, ?_, by simpa using hseg, ?_, ?_, ?_⟩
        · simp only [run_all_loop, ne_eq, ht, not_false_eq_true, if_true, hrun1, bind,
            Except.bind, hcell1, hfail, if_false, hhead, hset, Function.update_same]
          rw [hrun]
          simp [htf, hfail]
        · simp only [List.map_cons, hmap, hsd.1, hrtest]
          simp [List.filter_cons, htf, hfail]
        · intro p hp
          rcases List.mem_cons.mp hp with rfl | hp
          · exact ⟨r, by rw [hsd.1, hrtest]; exact hr, hsd⟩
          · exact hnew p hp
        · intro p hp
          exact same_data_trans (hold p (List.mem_append_left _ hp)) (hold2 p hp)

/-! ## The report -/

theorem pad_loop_length : ∀ (n pad : Nat), (pad_loop n pad).length = n
  | 0, _ => rfl
  | n + 1, pad => by simp [pad_loop, pad_loop_length n pad]

theorem print_header_ok (header_len pad : Nat) (text : List Nat) (hlen : text.length < 2 ^ 31) :
    print_header header_len pad text =
      .ok (pad_loop (header_pads header_len text.length).1 pad ++ [32] ++ text ++ [32] ++
        pad_loop (header_pads header_len text.length).2 pad ++ [10]) := by
  have h1 : vsnprintf text = (text.length : Int) := by
    unfold vsnprintf
    rw [if_pos hlen]
  have h2 : ¬ ((text.length : Int) < 0) := by omega
  simp [print_header, h1, h2]

/-- A failure section is printed for every record whose descriptor is not `NULL` and
whose header text fits an `int`. -/
theorem print_failure_ok (env : Env) (h : Heap) (cur : test_result) (ht : cur.test ≠ 0)
    (hlen : (cstr (h.suite cur.test) ++ bytes " :: " ++ cstr (h.name cur.test)).length < 2 ^ 31) :
    ∃ s, print_failure env h cur = .ok s := by
  simp only [print_failure, ht, if_false, print_header_ok _ _ _ hlen, bind, Except.bind]
  exact ⟨_, rfl⟩

theorem print_header_failures : print_header 50 61 (bytes "FAILURES") = .ok failures_banner := by
  rfl

theorem print_results_loop_spec (env : Env) (h : Heap) :
    ∀ (recs : List Ptr) (fuel : Nat) (rh : ResultHeap) (cur : Ptr) (count : Nat) (out : List Nat),
    rseg rh cur recs 0 → recs.length ≤ fuel →
    (∀ p ∈ recs, ∃ s, print_failure env h (rh.cell p) = .ok s) →
    ∃ rh' sects,
      print_results_loop env h fuel rh cur count out =
        .ok (rh', count + recs.length, out ++ sects.flatten) ∧
      List.Forall₂ (fun p s => print_failure env h (rh.cell p) = .ok s) recs sects
  | [], fuel, rh, cur, count, out, hl, _, _ => by
    have hcur : cur = 0 := hl
    subst hcur
    refine ⟨rh, [], ?_, List.Forall₂.nil⟩
    cases fuel <;> simp [print_results_loop]
  | p :: recs, fuel, rh, cur, count, out, hl, hfuel, hok => by
    obtain ⟨hcur, hp, hl'⟩ := hl
    subst hcur
    obtain ⟨f, rfl⟩ : ∃ f, fuel = f + 1 := ⟨fuel - 1, by simp at hfuel; omega⟩
    obtain ⟨s, hs⟩ := hok cur (List.mem_cons_self _ _)
    obtain ⟨rh', sects, hrun, hall⟩ :=
      print_results_loop_spec env h recs f (free_test_result rh cur) (rh.cell cur).next
        (count + 1) (out ++ s)
        (@rseg_frame rh (free_test_result rh cur) _ _ _ (fun x _ => rfl) hl')
        (by simp at hfuel; omega)
        (fun x hx => hok x (List.mem_cons_of_mem _ hx))
    refine ⟨rh', s :: sects, ?_, List.Forall₂.cons hs hall⟩
    simp only [print_results_loop, ne_eq, hp, not_false_eq_true, if_true, hs, bind, Except.bind]
    rw [hrun]
    simp [Nat.add_assoc, Nat.add_comm 1]

/-- The whole run from a well-formed registry list: `main` returns `0`, having written one
progress character per descriptor, the banner, one section per failing record and the
summary with the number of failing records and the number of descriptors. -/
theorem main_spec (env : Env) (fuel : Nat) (s : Registry) (rh : ResultHeap) (l : List Ptr)
    (hl : is_list s.heap s.registered_tests_head l) (hfuel : l.length ≤ fuel)
    (hfresh : ∀ live, env.xmalloc live ≠ 0 ∧ env.xmalloc live ∉ live)
    (hruns : ∀ t ∈ l, ∃ r, run_test_record env t = .ok r)
    (hlen : ∀ t ∈ l,
      (cstr (s.heap.suite t) ++ bytes " :: " ++ cstr (s.heap.name t)).length < 2 ^ 31) :
    ∃ sects : List (List Nat),
      sects.length = (l.filter (test_failed env)).length ∧
      main env fuel s rh = .ok (0,
        (sort_lists (compare_keys s.heap) l).map (fun t => if test_failed env t then 70 else 46) ++
          [10] ++ (failures_banner ++ sects.flatten ++
            summary_line (l.filter (test_failed env)).length l.length)) := by
  obtain ⟨s', hsort, hseg, hs, hn⟩ := sort_registry_spec fuel s l hl hfuel
  have hperm := sort_lists_perm (compare_keys s.heap) _ l rfl
  have hfuel' : (sort_lists (compare_keys s.heap) l).length ≤ fuel := by
    rw [hperm.length_eq]; exact hfuel
  obtain ⟨rh1, head1, new, hrun, hrseg, hmap, hnew, _⟩ :=
    run_all_loop_spec env s'.heap hfresh _ fuel rh s'.registered_tests_head 0 0 [] [] hseg hfuel'
      (fun t ht => hruns t (hperm.mem_iff.mp ht)) rfl List.nodup_nil (by simp) (Or.inl rfl)
  simp only [List.nil_append] at hrun hrseg
  have hnewlen : new.length = (l.filter (test_failed env)).length := by
    have h1 := congrArg List.length hmap
    rw [List.length_map] at h1
    rw [h1]
    exact (hperm.filter _).length_eq
  have hprint : ∀ p ∈ new, ∃ x, print_failure env s'.heap (rh1.cell p) = .ok x := by
    intro p hp
    have hmem : (rh1.cell p).test ∈ (sort_lists (compare_keys s.heap) l).filter (test_failed env) := by
      rw [← hmap]
      exact List.mem_map_of_mem _ hp
    have hmem' : (rh1.cell p).test ∈ l := hperm.mem_iff.mp (List.mem_filter.mp hmem).1
    refine print_failure_ok env s'.heap _ (lseg_ne_zero hl.1 _ hmem') ?_
    rw [hs, hn]
    exact hlen _ hmem'
  obtain ⟨rh2, sects, hloop, hall⟩ :=
    print_results_loop_spec env s'.heap new fuel rh1 head1 0 failures_banner hrseg
      (by rw [hnewlen]; exact le_trans (List.length_filter_le _ _) hfuel) hprint
  have hcount := count_tests_spec fuel hseg hfuel'
  refine ⟨sects, by rw [← hnewlen]; exact hall.length_eq.symm, ?_⟩
  simp only [main, hsort, run_all_tests, hrun, print_results, print_header_failures, hloop,
    hcount, bind, Except.bind, Nat.zero_add, hnewlen, hperm.length_eq]

/-! ## Header padding -/

/-- Where the text fits (`text_len <= 48`), the pads share the free width, the left one
getting the smaller half. -/
theorem header_pads_fit (text_len : Nat) (h : text_len ≤ 48) :
    header_pads 50 text_len = ((48 - text_len) / 2, 48 - text_len - (48 - text_len) / 2) := by
  simp only [header_pads, size_sub]
  have e1 : (50 % 2 ^ 64 + 2 ^ 64 - 2 % 2 ^ 64) % 2 ^ 64 = 48 := by norm_num
  rw [e1]
  have e2 : (48 % 2 ^ 64 + 2 ^ 64 - text_len % 2 ^ 64) % 2 ^ 64 = 48 - text_len := by omega
  rw [e2]
  have e3 : ((48 - text_len) % 2 ^ 64 + 2 ^ 64 - (48 - text_len) / 2 % 2 ^ 64) % 2 ^ 64 =
      48 - text_len - (48 - text_len) / 2 := by omega
  rw [e3]

/-- Where the text is longer than 48 bytes, both pad counts have wrapped around. -/
theorem header_pads_long (text_len : Nat) (h1 : 49 ≤ text_len) (h2 : text_len < 2 ^ 31) :
    2 ^ 62 ≤ (header_pads 50 text_len).1 ∧ 2 ^ 62 ≤ (header_pads 50 text_len).2 := by
  simp only [header_pads, size_sub]
  have e1 : (50 % 2 ^ 64 + 2 ^ 64 - 2 % 2 ^ 64) % 2 ^ 64 = 48 := by norm_num
  rw [e1]
  have e2 : (48 % 2 ^ 64 + 2 ^ 64 - text_len % 2 ^ 64) % 2 ^ 64 = 2 ^ 64 + 48 - text_len := by
    omega
  rw [e2]
  constructor <;> omega

theorem header_pads_fifty : header_pads 50 50 = (2 ^ 63 - 1, 2 ^ 63 - 1) := by
  simp only [header_pads, size_sub]
  norm_num

theorem long_header_length :
    (cstr long_suite ++ bytes " :: " ++ cstr long_name).length = 50 := by
  decide

theorem print_header_fifty :
    print_header 50 95 (cstr long_suite ++ bytes " :: " ++ cstr long_name) =
      .ok (pad_loop (2 ^ 63 - 1) 95 ++ [32] ++
        (cstr long_suite ++ bytes " :: " ++ cstr long_name) ++ [32] ++
        pad_loop (2 ^ 63 - 1) 95 ++ [10]) := by
  have hok := print_header_ok 50 95 (cstr long_suite ++ bytes " :: " ++ cstr long_name)
    (by rw [long_header_length]; norm_num)
  rw [long_header_length, header_pads_fifty] at hok
  exact hok

theorem fifty_length_sum :
    (2 : Nat) ^ 63 - 1 + (0 + 1) + 50 + (0 + 1) + (2 ^ 63 - 1) + (0 + 1) = 2 ^ 64 + 51 := by
  norm_num

theorem print_header_fifty_length :
    (pad_loop (2 ^ 63 - 1) 95 ++ [32] ++
      (cstr long_suite ++ bytes " :: " ++ cstr long_name) ++ [32] ++
      pad_loop (2 ^ 63 - 1) 95 ++ [10]).length = 2 ^ 64 + 51 := by
  rw [List.length_append, List.length_append, List.length_append, List.length_append,
    List.length_append, pad_loop_length, long_header_length]
  exact fifty_length_sum

/-! ## The scenarios -/

/-- The list-level sort on the scenario: `(A, t1)`, `(A, t2)`, `(B, t2)`. -/
theorem scenario_sort_lists :
    sort_lists (compare_keys scenario_registered.heap) [3, 2, 1] = [2, 3, 1] := by
  have h21 : compare_keys scenario_registered.heap 2 1 < 0 := by decide
  have h31 : compare_keys scenario_registered.heap 3 1 < 0 := by decide
  have h32 : ¬ compare_keys scenario_registered.heap 3 2 < 0 := by decide
  rw [sort_lists_split _ (by decide)]
  simp only [List.length_cons, List.length_nil, Nat.reduceAdd, Nat.reduceDiv, List.take, List.drop]
  rw [sort_lists_small _ (by decide), sort_lists_split _ (by decide)]
  simp only [List.length_cons, List.length_nil, Nat.reduceAdd, Nat.reduceDiv, List.take, List.drop]
  rw [sort_lists_small _ (by decide), sort_lists_small _ (by decide)]
  simp [merge_lists_cons, merge_lists_nil_left, merge_lists_nil_right, h21, h31, h32]

/-- The scenario sorted by the first statement of `main`. -/
theorem scenario_sorted :
    ∃ s', sort_registry 3 scenario_registered = .ok s' ∧
      is_list s'.heap s'.registered_tests_head [2, 3, 1] ∧
      s'.heap.suite = scenario_memory.suite ∧ s'.heap.name = scenario_memory.name := by
  obtain ⟨s', hrun, hseg, hs, hn⟩ :=
    sort_registry_spec 3 scenario_registered [3, 2, 1] (by decide) (by decide)
  rw [scenario_sort_lists] at hseg
  exact ⟨s', hrun, ⟨hseg, by decide⟩, hs, hn⟩

theorem le_foldr_max : ∀ (l : List Nat) (x : Nat), x ∈ l → x ≤ l.foldr max 0
  | [], x, hx => by simp at hx
  | a :: l, x, hx => by
    rcases List.mem_cons.mp hx with rfl | hx
    · exact le_max_left _ _
    · exact le_trans (le_foldr_max l x hx) (le_max_right _ _)

theorem bump_alloc_fresh (live : List Ptr) : bump_alloc live ≠ 0 ∧ bump_alloc live ∉ live := by
  refine ⟨Nat.succ_ne_zero _, fun hmem => ?_⟩
  have h1 : List.foldr max 0 live + 1 ≤ List.foldr max 0 live := le_foldr_max live _ hmem
  exact absurd h1 (Nat.not_succ_le_self _)

theorem quiet_env_passes (t : Ptr) : test_failed quiet_env t = false := by
  simp [test_failed, run_test_record, quiet_env, readall_from_pipe, read_loop, wait_for_child,
    WIFEXITED, WEXITSTATUS, bind, Except.bind]

theorem quiet_env_runs (t : Ptr) : ∃ r, run_test_record quiet_env t = .ok r := ⟨_, rfl⟩

theorem boom_env_runs : ∀ t ∈ [3, 2, 1], ∃ r, run_test_record boom_env t = .ok r := by
  intro t ht
  simp only [List.mem_cons, List.mem_singleton, List.not_mem_nil, or_false] at ht
  rcases ht with rfl | rfl | rfl <;> exact ⟨_, rfl⟩

/-! ## The claims -/

/-- C1: for every well-formed registry list, `sort_tests(head, count_tests(head))` returns
without fault and the list it returns is in ascending `(suite, name)` order: every descriptor
compares `<= 0` under `compare_tests` with every later one (so with the one after it), and of
two descriptors with different suite texts the one whose suite is the smaller in the
lexicographic order of bytes comes first. -/
theorem sort_tests_ascending (fuel : Nat) (h : Heap) (head : Ptr) (l : List Ptr)
    (hl : lseg h head l 0) (hfuel : l.length ≤ fuel) :
    ∃ n h' p out,
      count_tests fuel h head = .ok n ∧ sort_tests h head n = .ok (h', p) ∧
      is_list h' p out ∧ out.Perm l ∧ h'.suite = h.suite ∧ h'.name = h.name ∧
      out.Pairwise (fun a b =>
        (∃ c, compare_tests h' a b = .ok c ∧ c ≤ 0) ∧
        (cstr (h.suite a) ≠ cstr (h.suite b) →
          List.Lex (fun x y : Nat => x < y) (cstr (h.suite a)) (cstr (h.suite b)))) := by
  obtain ⟨h', p, hrun, hseg, _, hs, hn⟩ :=
    sort_tests_spec l.length l h head 0 rfl hl (lseg_nodup hl)
  have hperm := sort_lists_perm (compare_keys h) _ l rfl
  have hk : compare_keys h' = compare_keys h := compare_keys_congr hs hn
  refine ⟨l.length, h', p, sort_lists (compare_keys h) l, count_tests_spec fuel hl hfuel, hrun,
    is_list_of_lseg hseg, hperm, hs, hn, ?_⟩
  have hsorted := sort_lists_sorted (compare_keys_isOrdering h) _ l rfl
  have hnz := lseg_ne_zero hseg
  rw [List.pairwise_iff_forall_sublist] at hsorted ⊢
  intro a b hab
  have ha : a ∈ sort_lists (compare_keys h) l := hab.subset (by simp)
  have hb : b ∈ sort_lists (compare_keys h) l := hab.subset (by simp)
  have hle := hsorted hab
  refine ⟨⟨compare_keys h a b, ?_, hle⟩, ?_⟩
  · rw [compare_tests_ok h' (hnz a ha) (hnz b hb), hk]
  · intro hne
    have hne' : strcmp (h.suite a) (h.suite b) ≠ 0 := fun e => hne ((strcmp_eq_zero_iff _ _).mp e)
    rw [← strcmp_neg_iff]
    simp only [compare_keys, ne_eq, hne', not_false_eq_true, if_true] at hle
    omega

/-- C1, on the scenario: registering `(B, t2)`, `(A, t1)`, `(A, t2)` gives a well-formed
list, the theorem applies to it, and the sorted list is `A::t1, A::t2, B::t2`. -/
theorem sort_tests_ascending_witness :
    register_all scenario_start [1, 2, 3] = .ok scenario_registered ∧
    lseg scenario_registered.heap 3 [3, 2, 1] 0 ∧
    (∃ n h' p out,
      count_tests 3 scenario_registered.heap 3 = .ok n ∧
      sort_tests scenario_registered.heap 3 n = .ok (h', p) ∧
      is_list h' p out ∧ out.Perm [3, 2, 1] ∧
      h'.suite = scenario_registered.heap.suite ∧ h'.name = scenario_registered.heap.name ∧
      out.Pairwise (fun a b =>
        (∃ c, compare_tests h' a b = .ok c ∧ c ≤ 0) ∧
        (cstr (scenario_registered.heap.suite a) ≠ cstr (scenario_registered.heap.suite b) →
          List.Lex (fun x y : Nat => x < y) (cstr (scenario_registered.heap.suite a))
            (cstr (scenario_registered.heap.suite b))))) ∧
    (∃ s', sort_registry 3 scenario_registered = .ok s' ∧
      is_list s'.heap s'.registered_tests_head [2, 3, 1]) :=
  ⟨rfl, by decide,
    sort_tests_ascending 3 scenario_registered.heap 3 [3, 2, 1] (by decide) (by decide),
    scenario_sorted.elim fun s' hs => ⟨s', hs.1, hs.2.1⟩⟩

/-- C2: after any sequence of `cwt_register_test` calls on distinct descriptors, the list
`main` builds with `sort_tests(registered_tests_head, count_tests(registered_tests_head))`
is a permutation of the registered descriptors, `count_tests` of it is their number `N`, and
the summary `main` prints ends with the total `N`. -/
theorem registered_tests_each_once (fuel : Nat) (s0 : Registry) (ts : List Ptr)
    (hhead : s0.registered_tests_head = 0) (hnd : ts.Nodup) (hnz : ∀ t ∈ ts, t ≠ 0)
    (hfuel : ts.length ≤ fuel) :
    ∃ s s' out, register_all s0 ts = .ok s ∧ sort_registry fuel s = .ok s' ∧
      is_list s'.heap s'.registered_tests_head out ∧ out.Perm ts ∧
      count_tests fuel s'.heap s'.registered_tests_head = .ok ts.length ∧
      ∀ (env : Env) (rh : ResultHeap),
        (∀ live, env.xmalloc live ≠ 0 ∧ env.xmalloc live ∉ live) →
        (∀ t ∈ ts, ∃ r, run_test_record env t = .ok r) →
        (∀ t ∈ ts,
          (cstr (s0.heap.suite t) ++ bytes " :: " ++ cstr (s0.heap.name t)).length < 2 ^ 31) →
        ∃ sects : List (List Nat),
          sects.length = (ts.filter (test_failed env)).length ∧
          main env fuel s rh = .ok (0,
            out.map (fun t => if test_failed env t then 70 else 46) ++ [10] ++
              (failures_banner ++ sects.flatten ++
                summary_line (ts.filter (test_failed env)).length ts.length)) := by
  obtain ⟨s, s', hreg, hsort, hlist, hlist', hs, hn, _, _⟩ :=
    registered_sorted_spec fuel s0 ts hhead hnd hnz hfuel
  have hperm : (sort_lists (compare_keys s0.heap) ts.reverse).Perm ts :=
    (sort_lists_perm (compare_keys s0.heap) _ ts.reverse rfl).trans (List.reverse_perm ts)
  refine ⟨s, s', _, hreg, hsort, hlist', hperm, ?_, ?_⟩
  · rw [← hperm.length_eq]
    exact count_tests_spec fuel hlist'.1 (by rw [hperm.length_eq]; exact hfuel)
  · intro env rh hfresh hruns hlen
    obtain ⟨sects, hslen, hmain⟩ := main_spec env fuel s rh ts.reverse hlist (by simpa using hfuel)
      hfresh (fun t ht => hruns t (List.mem_reverse.mp ht))
      (fun t ht => by rw [hs, hn]; exact hlen t (List.mem_reverse.mp ht))
    have hk : compare_keys s.heap = compare_keys s0.heap := compare_keys_congr hs hn
    have hflen : (ts.reverse.filter (test_failed env)).length = (ts.filter (test_failed env)).length :=
      ((List.reverse_perm ts).filter _).length_eq
    rw [hk, hflen, List.length_reverse] at hmain
    exact ⟨sects, hslen.trans hflen, hmain⟩

/-- C2, on the scenario: the three registrations give a list of three descriptors, and with
every test succeeding `main` prints three dots, the banner and `0 tests failed, 3 total`. -/
theorem registered_tests_each_once_witness :
    scenario_start.registered_tests_head = 0 ∧ [1, 2, 3].Nodup ∧ (∀ t ∈ [1, 2, 3], t ≠ 0) ∧
    ∃ s s' out, register_all scenario_start [1, 2, 3] = .ok s ∧ sort_registry 3 s = .ok s' ∧
      is_list s'.heap s'.registered_tests_head out ∧ out.Perm [1, 2, 3] ∧
      count_tests 3 s'.heap s'.registered_tests_head = .ok 3 ∧
      main quiet_env 3 s empty_results = .ok (0, bytes
        "...\n==================== FAILURES ====================\n>> 0 tests failed, 3 total.\n") := by
  obtain ⟨s, s', out, hreg, hsort, hlist, hperm, hcount, hmain⟩ :=
    registered_tests_each_once 3 scenario_start [1, 2, 3] rfl (by decide) (by decide) (by decide)
  refine ⟨rfl, by decide, by decide, s, s', out, hreg, hsort, hlist, hperm, hcount, ?_⟩
  obtain ⟨sects, hlen, hrun⟩ := hmain quiet_env empty_results bump_alloc_fresh
    (fun t _ => quiet_env_runs t) (by decide)
  have hs : sects = [] := List.length_eq_zero.mp (by simpa [quiet_env_passes] using hlen)
  subst hs
  have hout : out.map (fun t => if test_failed quiet_env t then 70 else 46) = [46, 46, 46] := by
    have h3 : out.length = 3 := hperm.length_eq
    match out, h3 with
    | [a, b, c], _ => simp [quiet_env_passes]
  rw [hrun, hout]
  rfl

/-- C3: `run_all_tests` returns the chain of exactly the failing records, in the order the
descriptors are run: the descriptors of the chained records are the descriptors of the list
whose record has `status.failed` set, in list order, and every chained record carries the
data `run_test` produced for its descriptor, with `status.failed` nonzero. -/
theorem run_all_tests_keeps_failures_in_order (env : Env) (fuel : Nat) (h : Heap)
    (rh : ResultHeap) (tests_head : Ptr) (l : List Ptr)
    (hl : lseg h tests_head l 0) (hfuel : l.length ≤ fuel)
    (hfresh : ∀ live, env.xmalloc live ≠ 0 ∧ env.xmalloc live ∉ live)
    (hruns : ∀ t ∈ l, ∃ r, run_test_record env t = .ok r) :
    ∃ rh' head recs,
      run_all_tests env fuel h rh tests_head =
        .ok (rh', head, l.map (fun t => if test_failed env t then 70 else 46)) ∧
      rseg rh' head recs 0 ∧
      recs.map (fun p => (rh'.cell p).test) = l.filter (test_failed env) ∧
      ∀ p ∈ recs, (rh'.cell p).status.failed ≠ 0 ∧
        ∃ r, run_test_record env (rh'.cell p).test = .ok r ∧ same_data (rh'.cell p) r := by
  obtain ⟨rh', head', new, hrun, hseg, hmap, hnew, _⟩ :=
    run_all_loop_spec env h hfresh l fuel rh tests_head 0 0 [] [] hl hfuel hruns rfl
      List.nodup_nil (by simp) (Or.inl rfl)
  simp only [List.nil_append] at hrun hseg
  refine ⟨rh', head', new, hrun, hseg, hmap, ?_⟩
  intro p hp
  obtain ⟨r, hr, hsd⟩ := hnew p hp
  refine ⟨?_, r, hr, hsd⟩
  have hmem : (rh'.cell p).test ∈ l.filter (test_failed env) := by
    rw [← hmap]
    exact List.mem_map_of_mem _ hp
  have htf := (List.mem_filter.mp hmem).2
  simp only [test_failed, hr, decide_eq_true_eq] at htf
  rw [hsd.2.2]
  exact htf

/-- C3, on the registered scenario run in list order, where only the descriptor at 3 fails. -/
theorem run_all_tests_keeps_failures_in_order_witness :
    lseg scenario_registered.heap 3 [3, 2, 1] 0 ∧
    (∀ live, boom_env.xmalloc live ≠ 0 ∧ boom_env.xmalloc live ∉ live) ∧
    (∀ t ∈ [3, 2, 1], ∃ r, run_test_record boom_env t = .ok r) ∧
    ∃ rh' head recs,
      run_all_tests boom_env 3 scenario_registered.heap empty_results 3 = .ok (rh', head, [70, 46, 46]) ∧
      rseg rh' head recs 0 ∧ recs.map (fun p => (rh'.cell p).test) = [3] :=
  ⟨by decide, bump_alloc_fresh, boom_env_runs,
    (run_all_tests_keeps_failures_in_order boom_env 3 scenario_registered.heap empty_results 3
      [3, 2, 1] (by decide) (by decide) bump_alloc_fresh boom_env_runs).elim
      fun rh' hr => hr.elim fun head hh => hh.elim fun recs h => ⟨rh', head, recs, h.1, h.2.1, h.2.2.1⟩⟩

/-- C4: for a body that returns leaving `result.failed = f` in the zeroed result,
`forked_runner_main` returns `0` when `f = 0` and `1` otherwise; the record `run_test` builds
from the child's exit has `status.failed = (f != 0)`; and the descriptor has a record in the
list `run_all_tests` returns exactly when `f` is nonzero. -/
theorem returned_body_decides_failure (env : Env) (fuel : Nat) (h : Heap) (rh : ResultHeap)
    (tests_head : Ptr) (l : List Ptr) (t : Ptr) (runner : cwt_test_result → cwt_test_result)
    (hl : lseg h tests_head l 0) (hfuel : l.length ≤ fuel)
    (hfresh : ∀ live, env.xmalloc live ≠ 0 ∧ env.xmalloc live ∉ live)
    (hruns : ∀ t ∈ l, ∃ r, run_test_record env t = .ok r) (ht : t ∈ l)
    (hbody : (env.child t).wait_status = wait_status_of (child_process (.returned runner))) :
    forked_runner_main runner = (if (runner { failed := 0 }).failed = 0 then 0 else 1) ∧
    (∃ r, run_test_record env t = .ok r ∧
      r.status = { failed := if (runner { failed := 0 }).failed = 0 then 0 else 1,
                   exit_code := if (runner { failed := 0 }).failed = 0 then 0 else 1,
                   signal := 0 }) ∧
    ∃ rh' head recs out,
      run_all_tests env fuel h rh tests_head = .ok (rh', head, out) ∧ rseg rh' head recs 0 ∧
      ((∃ p ∈ recs, (rh'.cell p).test = t) ↔ (runner { failed := 0 }).failed ≠ 0) := by
  obtain ⟨r, hr⟩ := hruns t ht
  have hmain : forked_runner_main runner = (if (runner { failed := 0 }).failed = 0 then 0 else 1) := by
    by_cases hf : (runner { failed := 0 }).failed = 0
    · simp [forked_runner_main, hf]
    · simp [forked_runner_main, hf]
  have hstatus : r.status =
      Status.mk (if (runner { failed := 0 }).failed = 0 then 0 else 1)
        (if (runner { failed := 0 }).failed = 0 then 0 else 1) 0 := by
    by_cases hf : (runner { failed := 0 }).failed = 0
    · have := run_test_record_exited 0 (by decide) hr
        (by rw [hbody]; simp [child_process, hmain, hf])
      simpa [hf] using this
    · have := run_test_record_exited 1 (by decide) hr
        (by rw [hbody]; simp [child_process, hmain, hf])
      simpa [hf] using this
  refine ⟨hmain, ⟨r, hr, hstatus⟩, ?_⟩
  obtain ⟨rh', head', new, hrun, hseg, hmap, _, _⟩ :=
    run_all_loop_spec env h hfresh l fuel rh tests_head 0 0 [] [] hl hfuel hruns rfl
      List.nodup_nil (by simp) (Or.inl rfl)
  simp only [List.nil_append] at hrun hseg
  refine ⟨rh', head', new, _, hrun, hseg, ?_⟩
  have hiff : (∃ p ∈ new, (rh'.cell p).test = t) ↔ t ∈ l.filter (test_failed env) := by
    rw [← hmap, List.mem_map]
  rw [hiff, List.mem_filter]
  have htf : test_failed env t = decide (r.status.failed ≠ 0) := by simp [test_failed, hr]
  rw [htf, hstatus]
  by_cases hf : (runner { failed := 0 }).failed = 0
  · simp [hf]
  · simp [hf, ht]

/-- C4, on the scenario where the body of the descriptor at 3 sets `failed` to `5`. -/
theorem returned_body_decides_failure_witness :
    lseg scenario_registered.heap 3 [3, 2, 1] 0 ∧
    (∀ live, boom_env.xmalloc live ≠ 0 ∧ boom_env.xmalloc live ∉ live) ∧
    (∀ t ∈ [3, 2, 1], ∃ r, run_test_record boom_env t = .ok r) ∧
    (boom_env.child 3).wait_status =
      wait_status_of (child_process (.returned (fun _ => { failed := 5 }))) ∧
    forked_runner_main (fun _ => { failed := 5 }) = 1 ∧
    ∃ rh' head recs out,
      run_all_tests boom_env 3 scenario_registered.heap empty_results 3 = .ok (rh', head, out) ∧
      rseg rh' head recs 0 ∧ ((∃ p ∈ recs, (rh'.cell p).test = 3) ↔ (5 : Int) ≠ 0) :=
  ⟨by decide, bump_alloc_fresh, boom_env_runs, rfl,
    (returned_body_decides_failure boom_env 3 scenario_registered.heap empty_results 3 [3, 2, 1]
      3 (fun _ => { failed := 5 }) (by decide) (by decide) bump_alloc_fresh boom_env_runs
      (by decide) rfl).1,
    (returned_body_decides_failure boom_env 3 scenario_registered.heap empty_results 3 [3, 2, 1]
      3 (fun _ => { failed := 5 }) (by decide) (by decide) bump_alloc_fresh boom_env_runs
      (by decide) rfl).2.2⟩

/-- C5: after a successful `waitpid`, `wait_for_child` on a zeroed status sets, for a normal
exit, `exit_code` to the exit code and `failed` to whether it is nonzero, leaving `signal` at
`0`; for a termination by signal, `signal` to its number and `failed` to `1`, leaving
`exit_code` at `0`; for any other status it dies.  A returned record has `failed` set exactly
when its exit code is nonzero or a signal is recorded.  The status of a process that exited
with code `c` decodes to exit code `c`, that of one killed by signal `s` to signal `s`. -/
theorem wait_for_child_decodes (result : test_result) (err : Int) (wait_status : Nat)
    (hz : result.status = { failed := 0, exit_code := 0, signal := 0 }) (herr : 0 ≤ err) :
    (WIFEXITED wait_status = true →
      wait_for_child result err wait_status =
        .ok { result with
          status := { failed := if WEXITSTATUS wait_status ≠ 0 then 1 else 0,
                      exit_code := (WEXITSTATUS wait_status : Int), signal := 0 } }) ∧
    (WIFEXITED wait_status = false → WIFSIGNALED wait_status = true →
      wait_for_child result err wait_status =
        .ok { result with
          status := { failed := 1, exit_code := 0, signal := (WTERMSIG wait_status : Int) } }) ∧
    (WIFEXITED wait_status = false → WIFSIGNALED wait_status = false →
      wait_for_child result err wait_status = .error .died) ∧
    (∀ r, wait_for_child result err wait_status = .ok r →
      (r.status.failed ≠ 0 ↔ (r.status.exit_code ≠ 0 ∨ r.status.signal ≠ 0))) ∧
    (∀ c : Nat, c < 256 →
      WIFEXITED (wait_status_of (.exited c)) = true ∧
      WEXITSTATUS (wait_status_of (.exited c)) = c) ∧
    (∀ s : Nat, 1 ≤ s → s ≤ 126 →
      WIFEXITED (wait_status_of (.killed s)) = false ∧
      WIFSIGNALED (wait_status_of (.killed s)) = true ∧
      WTERMSIG (wait_status_of (.killed s)) = s) := by
  refine ⟨?_, ?_, ?_, ?_, ?_, ?_⟩
  · intro hex
    rw [wait_for_child_exited result err wait_status herr hex, hz]
  · intro hex hsig
    rw [wait_for_child_signaled result err wait_status herr hex hsig, hz]
  · exact wait_for_child_other result err wait_status
  · intro r hr
    by_cases hex : WIFEXITED wait_status = true
    · rw [wait_for_child_exited result err wait_status herr hex, hz] at hr
      cases hr
      by_cases hc : WEXITSTATUS wait_status = 0
      · simp [hc]
      · simp [hc]
    · have hex' : WIFEXITED wait_status = false := by simpa using hex
      by_cases hsig : WIFSIGNALED wait_status = true
      · rw [wait_for_child_signaled result err wait_status herr hex' hsig, hz] at hr
        cases hr
        have hpos : 1 ≤ wait_status % 128 := by
          simp only [WIFSIGNALED, Bool.and_eq_true, decide_eq_true_eq] at hsig
          exact hsig.1
        have hne : ((WTERMSIG wait_status : Nat) : Int) ≠ 0 := by
          simp only [WTERMSIG]
          omega
        simp [hne]
      · have hsig' : WIFSIGNALED wait_status = false := by simpa using hsig
        rw [wait_for_child_other result err wait_status hex' hsig'] at hr
        cases hr
  · exact wait_status_exited
  · exact wait_status_killed

/-- C5, on a child that exited with code `1`. -/
theorem wait_for_child_decodes_witness :
    (fresh_result 1).status = { failed := 0, exit_code := 0, signal := 0 } ∧ (0 : Int) ≤ 0 ∧
    wait_for_child (fresh_result 1) 0 256 =
      .ok { test := 1, log := none, status := { failed := 1, exit_code := 1, signal := 0 },
            next := 0 } :=
  ⟨rfl, le_refl 0, (wait_for_child_decodes (fresh_result 1) 0 256 rfl (le_refl 0)).1 rfl⟩

/-- C7, on the code: for a failing test whose suite and name are 23 bytes each, the header
text `suite :: name` has 50 bytes, the target width, and `print_header` computes
`left_pad_len = right_pad_len = 2^63 - 1` (the `size_t` subtraction `48 - 50` wraps around)
instead of `0`, and writes `2^64 + 51` bytes instead of the 53 of space, text, space, newline. -/
theorem header_pads_wrap_around :
    (cstr long_suite ++ bytes " :: " ++ cstr long_name).length = 50 ∧
    header_pads 50 50 = (2 ^ 63 - 1, 2 ^ 63 - 1) ∧
    ∃ out, print_header 50 95 (cstr long_suite ++ bytes " :: " ++ cstr long_name) = .ok out ∧
      out.length = 2 ^ 64 + 51 :=
  ⟨long_header_length, header_pads_fifty, _, print_header_fifty, print_header_fifty_length⟩

/-- C8: the sort, applied to the registry as `main` does, keeps descriptors of equal suite
and name in the order in which they were registered: if `a` was registered before `b` and
their suite texts and their name texts are equal, then `a` comes before `b` in the list
`sort_tests` returns. -/
theorem sort_keeps_registration_order (fuel : Nat) (s0 : Registry) (ts : List Ptr)
    (hhead : s0.registered_tests_head = 0) (hnd : ts.Nodup) (hnz : ∀ t ∈ ts, t ≠ 0)
    (hfuel : ts.length ≤ fuel) :
    ∃ s s' out, register_all s0 ts = .ok s ∧ sort_registry fuel s = .ok s' ∧
      is_list s'.heap s'.registered_tests_head out ∧
      ∀ a b, List.Sublist [a, b] ts →
        cstr (s0.heap.suite a) = cstr (s0.heap.suite b) →
        cstr (s0.heap.name a) = cstr (s0.heap.name b) →
        List.Sublist [a, b] out := by
  obtain ⟨s, s', hreg, hsort, _, hlist', _, _, _, _⟩ :=
    registered_sorted_spec fuel s0 ts hhead hnd hnz hfuel
  refine ⟨s, s', _, hreg, hsort, hlist', ?_⟩
  intro a b hsub hsuite hname
  have hab : compare_keys s0.heap a b = 0 := by
    have h1 := (strcmp_eq_zero_iff _ _).mpr hsuite
    have h2 := (strcmp_eq_zero_iff _ _).mpr hname
    simp [compare_keys, h1, h2]
  exact sort_lists_pair (compare_keys_isOrdering s0.heap) ts.reverse a b hab
    (by rw [List.reverse_reverse]; exact hsub)

/-- C8, on three descriptors of equal suite and name registered at 1, 2, 3: they are run
in this order. -/
theorem sort_keeps_registration_order_witness :
    (0 : Ptr) = 0 ∧ [1, 2, 3].Nodup ∧ (∀ t ∈ [1, 2, 3], t ≠ 0) ∧
    ∃ s s' out,
      register_all { heap := twin_memory, registered_tests_head := 0 } [1, 2, 3] = .ok s ∧
      sort_registry 3 s = .ok s' ∧ is_list s'.heap s'.registered_tests_head out ∧
      List.Sublist [1, 2] out ∧ List.Sublist [2, 3] out :=
  ⟨rfl, by decide, by decide,
    (sort_keeps_registration_order 3 { heap := twin_memory, registered_tests_head := 0 }
      [1, 2, 3] rfl (by decide) (by decide) (by decide)).elim
      fun s hs => hs.elim fun s' hs' => hs'.elim fun out h =>
        ⟨s, s', out, h.1, h.2.1, h.2.2.1,
          h.2.2.2 1 2 (by decide) rfl rfl, h.2.2.2 2 3 (by decide) rfl rfl⟩⟩

/-- C9 as stated fails: when the child writes the three bytes `a`, `NUL`, `b`, the log holds
them all, but the body printed is `a` alone. -/
theorem nul_byte_cuts_printed_log :
    readall_from_pipe 170 [ReadResult.data [97, 0, 98]] = .ok (some [97, 0, 98, 0]) ∧
    print_log (some [97, 0, 98, 0]) = [97, 10] ∧
    print_log (some [97, 0, 98, 0]) ≠ [97, 0, 98] ++ [10] := by
  refine ⟨rfl, rfl, by decide⟩

/-- C9, as the code has it: however the child's output is split over the `read` calls,
`readall_from_pipe` returns their concatenation in order, zero-terminated (`NULL` when
nothing was read), this is the `log` of the record, and the body `print_results` prints is
that output up to its first zero byte, followed by a newline: the whole output, byte for
byte, when it holds no zero byte. -/
theorem printed_log_is_output_up_to_nul (env : Env) (t : Ptr) (chunks : List (List Nat))
    (hne : ∀ c ∈ chunks, c ≠ [])
    (hreads : (env.child t).reads = chunks.map ReadResult.data) :
    readall_from_pipe env.fill (env.child t).reads =
      .ok (if chunks.flatten = [] then none else some (chunks.flatten ++ [0])) ∧
    (∀ r, run_test_record env t = .ok r →
      r.log = (if chunks.flatten = [] then none else some (chunks.flatten ++ [0])) ∧
      print_log r.log = cstr chunks.flatten ++ [10] ∧
      (0 ∉ chunks.flatten → print_log r.log = chunks.flatten ++ [10])) := by
  have hread := readall_from_pipe_spec env.fill chunks hne
  rw [← hreads] at hread
  refine ⟨hread, ?_⟩
  intro r hr
  obtain ⟨log, hlog, hw, _⟩ := run_test_record_wait hr
  rw [hread] at hlog
  cases hlog
  have hrl := (wait_for_child_fields hw).2.1
  simp only at hrl
  have hprint : print_log r.log = cstr chunks.flatten ++ [10] := by
    rw [hrl]
    by_cases hj : chunks.flatten = []
    · simp [hj, print_log, cstr]
    · simp [hj, print_log, cstr_append_zero]
  refine ⟨hrl, hprint, ?_⟩
  intro h0
  rw [hprint, cstr_of_no_zero _ h0]

/-- C9, on the output `boom` read in two chunks. -/
theorem printed_log_is_output_up_to_nul_witness :
    (∀ c ∈ [bytes "bo", bytes "om"], c ≠ []) ∧
    readall_from_pipe 170 ([bytes "bo", bytes "om"].map ReadResult.data) =
      .ok (some (bytes "boom" ++ [0])) :=
  ⟨by decide,
    (printed_log_is_output_up_to_nul
      { quiet_env with child := fun _ =>
          { reads := [bytes "bo", bytes "om"].map ReadResult.data, waitpid_ret := 0,
            wait_status := 0 } }
      1 [bytes "bo", bytes "om"] (by decide) rfl).1⟩

/-- C10: on every well-formed list of `n` nodes, `count_tests` returns `n` and
`sort_tests(head, n)` returns without fault (no `NULL` is dereferenced, no loop runs on),
giving a well-formed list of `n` nodes; with no node it returns `NULL` and leaves the memory
as it is, with one node it returns that node with its `next` cleared. -/
theorem sort_tests_handles_every_length (fuel : Nat) (h : Heap) (head : Ptr) (l : List Ptr)
    (hl : lseg h head l 0) (hfuel : l.length ≤ fuel) :
    count_tests fuel h head = .ok l.length ∧
    (∃ h' p out, sort_tests h head l.length = .ok (h', p) ∧ is_list h' p out ∧
      out.length = l.length) ∧
    (l = [] → sort_tests h head l.length = .ok (h, 0)) ∧
    (∀ a, l = [a] →
      sort_tests h head l.length = .ok ({ h with next := Function.update h.next a 0 }, a)) := by
  refine ⟨count_tests_spec fuel hl hfuel, ?_, ?_, ?_⟩
  · obtain ⟨h', p, hrun, hseg, _, _, _⟩ :=
      sort_tests_spec l.length l h head 0 rfl hl (lseg_nodup hl)
    have hperm := sort_lists_perm (compare_keys h) _ l rfl
    exact ⟨h', p, _, hrun, is_list_of_lseg hseg, hperm.length_eq⟩
  · intro hnil
    subst hnil
    rw [sort_tests]
    simp
  · intro a ha
    subst ha
    obtain ⟨hp, hnz, _⟩ := hl
    subst hp
    rw [sort_tests]
    simp [set_next_ok h _ hnz, bind, Except.bind]

/-- C10, on the empty registry: the sort returns `NULL`, no test is run, and `main` prints
the banner and the summary `0 tests failed, 0 total`. -/
theorem sort_tests_handles_every_length_witness :
    lseg scenario_memory 0 [] 0 ∧
    (count_tests 0 scenario_memory 0 = .ok 0 ∧
      (∃ h' p out, sort_tests scenario_memory 0 0 = .ok (h', p) ∧ is_list h' p out ∧
        out.length = 0) ∧
      sort_tests scenario_memory 0 0 = .ok (scenario_memory, 0)) ∧
    main quiet_env 0 scenario_start empty_results =
      .ok (0, bytes "\n==================== FAILURES ====================\n>> 0 tests failed, 0 total.\n") := by
  have hthm := sort_tests_handles_every_length 0 scenario_memory 0 [] (by decide) (by decide)
  refine ⟨by decide, ⟨hthm.1, hthm.2.1, hthm.2.2.1 rfl⟩, ?_⟩
  obtain ⟨sects, hlen, hmain⟩ := main_spec quiet_env 0 scenario_start empty_results []
    (by decide) (by decide) bump_alloc_fresh (by simp) (by simp)
  have hs : sects = [] := List.length_eq_zero.mp (by simpa using hlen)
  subst hs
  rw [hmain, sort_lists_small _ (by decide)]
  rfl

end Cwt
